import Mathlib

/-!
Verification of the AIMP/0.1 negotiation engine.

This file gives a shallow embedding of the protocol data model and the
message-handling operations of the `aimp` repository (protocol.py,
session_handler.py, room_handler.py, agent.py, hub_agent.py) and proves or
refutes the frozen claims about them.

Conventions of the embedding:
* Python `dict`s (insertion-ordered, unique keys) are modelled as association
  lists `List (String × α)`; `dictSet` reproduces `d[k] = v` (update in place
  if the key exists, append otherwise) and `dictGet` reproduces `d.get(k)`.
* Python `float` timestamps are modelled as `Int`: the code only ever copies
  them and compares them, never does fractional arithmetic on paths covered
  by the claims.
* Exceptions are modelled by returning the partially-mutated state together
  with an `Option PyErr` (Python mutates objects in place, so state changed
  before a `raise` stays visible to the caller).
* The LLM is an external oracle (spec §6.3); its structured output for a
  given message is passed to the handler model as data.
-/

namespace AIMP

/-- Error kinds raised by the protocol layer (`ValueError` / `KeyError`). -/
inductive PyErr where
  | valueError
  | keyError
deriving Repr, DecidableEq

/-! ### Python dict as association list -/

/-- `d[k] = v`: replace in place if the key exists, else append. -/
def dictSet (l : List (String × α)) (k : String) (v : α) : List (String × α) :=
  if l.any (fun kv => kv.1 = k) then
    l.map (fun kv => if kv.1 = k then (k, v) else kv)
  else l ++ [(k, v)]

/-- `d.get(k)`: value of the first entry with key `k`. -/
def dictGet (l : List (String × α)) (k : String) : Option α :=
  (l.find? (fun kv => kv.1 = k)).map (fun kv => kv.2)

/-- `k in d`. -/
def dictHasKey (l : List (String × α)) (k : String) : Bool :=
  l.any (fun kv => kv.1 = k)

/-! ### protocol.py — constants and HistoryEntry -/

/-- `MAX_ROUNDS = 5` (protocol.py). -/
def MAX_ROUNDS : Nat := 5

/-- `HistoryEntry` (protocol.py).  `to_dict`/`from_dict` serialize exactly
these four fields (JSON key "from" ↔ `from_agent`), so the wire form of an
entry is the entry itself. -/
structure HistoryEntry where
  version : Int
  from_agent : String
  action : String
  summary : String
deriving Repr, DecidableEq

/-! ### protocol.py — ProposalItem -/

/-- `ProposalItem` (protocol.py): options list and `votes : dict[str, Optional[str]]`. -/
structure ProposalItem where
  options : List String
  votes : List (String × Option String)
deriving Repr, DecidableEq

namespace ProposalItem

/-- `add_option`: append unless already present. -/
def add_option (it : ProposalItem) (option : String) : ProposalItem :=
  if option ∈ it.options then it else { it with options := it.options ++ [option] }

/-- `vote`: raises `ValueError` when the choice is not among the options;
otherwise `votes[voter] = choice`. -/
def vote (it : ProposalItem) (voter choice : String) : Except PyErr ProposalItem :=
  if choice ∈ it.options then
    Except.ok { it with votes := dictSet it.votes voter (some choice) }
  else Except.error PyErr.valueError

/-- `clear_vote`: `votes[voter] = None`. -/
def clear_vote (it : ProposalItem) (voter : String) : ProposalItem :=
  { it with votes := dictSet it.votes voter none }

/-- The body of `ensure_participant` acting on one item:
`if email not in item.votes: item.votes[email] = None`. -/
def ensureSlot (it : ProposalItem) (email : String) : ProposalItem :=
  if dictHasKey it.votes email then it
  else { it with votes := it.votes ++ [(email, none)] }

/-- `check_consensus` (protocol.py lines 72-82): the non-`None` votes, then
`None` if there are none, else the first one when every slot is filled and
`len(set(actual_votes)) == 1`. -/
def check_consensus (it : ProposalItem) : Option String :=
  let actual_votes := it.votes.filterMap (fun kv => kv.2)
  if actual_votes.isEmpty then none
  else if actual_votes.length = it.votes.length ∧ actual_votes.dedup.length = 1 then
    some (actual_votes.headD "")
  else none

end ProposalItem

/-! ### protocol.py — AIMPSession -/

/-- `AIMPSession`.  `created_at` is omitted: it is never serialized
(`to_json` does not emit it and `from_json` resets it to the current time)
and no claim mentions it. -/
structure AIMPSession where
  session_id : String
  topic : String
  participants : List String
  initiator : String
  version : Int
  proposals : List (String × ProposalItem)
  history : List HistoryEntry
  status : String
  current_round : Int
  round_respondents : List String
deriving Repr, DecidableEq

/-- `{p: None for p in participants}`: a dict comprehension is a sequence of
dict writes. -/
def initialVotes (participants : List String) : List (String × Option String) :=
  participants.foldl (fun acc p => dictSet acc p none) []

namespace AIMPSession

/-- `AIMPSession.__init__`: voting slots for `time` and `location` are created
for every participant; `initiator or (participants[0] if participants else "")`. -/
def init (session_id topic : String) (participants : List String)
    (initiator : String := "") : AIMPSession where
  session_id := session_id
  topic := topic
  participants := participants
  initiator := if initiator ≠ "" then initiator else participants.headD ""
  version := 0
  proposals :=
    [("time", ⟨[], initialVotes participants⟩),
     ("location", ⟨[], initialVotes participants⟩)]
  history := []
  status := "negotiating"
  current_round := 1
  round_respondents := []

/-- `next_version`. -/
def next_version (s : AIMPSession) : Int := s.version + 1

/-- `bump_version`. -/
def bump_version (s : AIMPSession) : AIMPSession := { s with version := s.version + 1 }

/-- `ensure_participant` (protocol.py lines 144-150). -/
def ensure_participant (s : AIMPSession) (email : String) : AIMPSession :=
  { s with
    participants :=
      if email ∈ s.participants then s.participants else s.participants ++ [email]
    proposals := s.proposals.map (fun ni => (ni.1, ni.2.ensureSlot email)) }

/-- `add_option` (protocol.py lines 154-160): create the item if missing
(with a slot per current participant), then append the option. -/
def add_option (s : AIMPSession) (item option : String) : AIMPSession :=
  let s1 :=
    if dictHasKey s.proposals item then s
    else { s with proposals := dictSet s.proposals item ⟨[], initialVotes s.participants⟩ }
  { s1 with
    proposals := s1.proposals.map
      (fun ni => if ni.1 = item then (ni.1, ni.2.add_option option) else ni) }

/-- `apply_vote` (protocol.py lines 162-167).  `ensure_participant` has
already mutated the session when the later `KeyError`/`ValueError` is raised,
so the partially-updated state is returned with the error. -/
def apply_vote (s : AIMPSession) (voter item choice : String) :
    AIMPSession × Option PyErr :=
  let s1 := s.ensure_participant voter
  match dictGet s1.proposals item with
  | none => (s1, some PyErr.keyError)
  | some it =>
    match it.vote voter choice with
    | Except.error e => (s1, some e)
    | Except.ok it2 => ({ s1 with proposals := dictSet s1.proposals item it2 }, none)

/-- `check_consensus`: `{item: resolved_value | None}`. -/
def check_consensus (s : AIMPSession) : List (String × Option String) :=
  s.proposals.map (fun ni => (ni.1, ni.2.check_consensus))

/-- `is_fully_resolved`. -/
def is_fully_resolved (s : AIMPSession) : Bool :=
  s.check_consensus.all (fun nv => nv.2.isSome)

/-- `round_count`: history length. -/
def round_count (s : AIMPSession) : Nat := s.history.length

/-- `is_stalled`: `round_count() >= MAX_ROUNDS`. -/
def is_stalled (s : AIMPSession) : Bool := MAX_ROUNDS ≤ s.round_count

/-- `record_round_reply` (deduped append). -/
def record_round_reply (s : AIMPSession) (from_email : String) : AIMPSession :=
  if from_email ∈ s.round_respondents then s
  else { s with round_respondents := s.round_respondents ++ [from_email] }

/-- `is_round_complete` (protocol.py lines 202-213). -/
def is_round_complete (s : AIMPSession) : Bool :=
  let expected :=
    if s.current_round = 1 then s.participants.filter (fun p => p ≠ s.initiator)
    else s.participants
  !expected.isEmpty && expected.all (fun e => e ∈ s.round_respondents)

/-- `advance_round`: round + 1, respondents cleared. -/
def advance_round (s : AIMPSession) : AIMPSession :=
  { s with current_round := s.current_round + 1, round_respondents := [] }

/-- `add_history`: the entry carries the current (already bumped) version. -/
def add_history (s : AIMPSession) (from_agent action summary : String) : AIMPSession :=
  { s with history := s.history ++ [⟨s.version, from_agent, action, summary⟩] }

end AIMPSession

/-! ### protocol.py — wire forms

`to_json` always emits every key, so the wire form is modelled as a structure
with all fields present; the `.get(...)` defaults of the Python loaders are
only reachable for hand-built dicts, never for `to_json` output. -/

/-- `ProposalItem.to_dict` output: `{"options": [...], "votes": {...}}`. -/
structure ProposalItemWire where
  options : List String
  votes : List (String × Option String)
deriving Repr, DecidableEq

/-- `ProposalItem.to_dict`. -/
def ProposalItem.to_dict (it : ProposalItem) : ProposalItemWire :=
  ⟨it.options, it.votes⟩

/-- `ProposalItem.from_dict`. -/
def ProposalItem.from_dict (w : ProposalItemWire) : ProposalItem :=
  ⟨w.options, w.votes⟩

/-- `AIMPSession.to_json` output (§6.2 wire form).  JSON key "from" is the
field `fromAddr`. -/
structure SessionWire where
  protocol : String
  session_id : String
  version : Int
  topic : String
  fromAddr : String
  participants : List String
  proposals : List (String × ProposalItemWire)
  status : String
  history : List HistoryEntry
  current_round : Int
  round_respondents : List String
deriving Repr, DecidableEq

namespace AIMPSession

/-- `AIMPSession.to_json` (protocol.py lines 234-248). -/
def to_json (s : AIMPSession) : SessionWire where
  protocol := "AIMP/0.1"
  session_id := s.session_id
  version := s.version
  topic := s.topic
  fromAddr := s.initiator
  participants := s.participants
  proposals := s.proposals.map (fun ni => (ni.1, ni.2.to_dict))
  status := s.status
  history := s.history
  current_round := s.current_round
  round_respondents := s.round_respondents

/-- `AIMPSession.from_json` (protocol.py lines 250-277): load every field,
then make sure the `time` and `location` items exist (fresh unvoted slots per
participant when missing). -/
def from_json (w : SessionWire) : AIMPSession :=
  let ps := w.proposals.map (fun nw => (nw.1, ProposalItem.from_dict nw.2))
  let ps1 :=
    if dictHasKey ps "time" then ps
    else ps ++ [("time", (⟨[], initialVotes w.participants⟩ : ProposalItem))]
  let ps2 :=
    if dictHasKey ps1 "location" then ps1
    else ps1 ++ [("location", (⟨[], initialVotes w.participants⟩ : ProposalItem))]
  { session_id := w.session_id
    topic := w.topic
    participants := w.participants
    initiator := w.fromAddr
    version := w.version
    proposals := ps2
    history := w.history
    status := w.status
    current_round := w.current_round
    round_respondents := w.round_respondents }

end AIMPSession

/-! ### protocol.py — Phase 2: Artifact and AIMPRoom -/

/-- `Artifact` (protocol.py).  `to_dict`/`from_dict` serialize exactly these
five fields, so the wire form of an artifact is the artifact itself. -/
structure Artifact where
  name : String
  content_type : String
  body_text : String
  author : String
  timestamp : Int
deriving Repr, DecidableEq

/-- `AIMPRoom` (protocol.py lines 323-343). -/
structure AIMPRoom where
  room_id : String
  topic : String
  deadline : Int
  participants : List String
  initiator : String
  artifacts : List (String × Artifact)
  transcript : List HistoryEntry
  status : String
  created_at : Int
  resolution_rules : String
  accepted_by : List String
  current_round : Int
  round_respondents : List String
deriving Repr, DecidableEq

/-- `AIMPRoom.to_json` output: every field of the room, in wire layout. -/
structure RoomWire where
  room_id : String
  topic : String
  deadline : Int
  participants : List String
  initiator : String
  artifacts : List (String × Artifact)
  transcript : List HistoryEntry
  status : String
  created_at : Int
  resolution_rules : String
  accepted_by : List String
  current_round : Int
  round_respondents : List String
deriving Repr, DecidableEq

namespace AIMPRoom

/-- `AIMPRoom.to_json` (protocol.py lines 345-360). -/
def to_json (r : AIMPRoom) : RoomWire where
  room_id := r.room_id
  topic := r.topic
  deadline := r.deadline
  participants := r.participants
  initiator := r.initiator
  artifacts := r.artifacts
  transcript := r.transcript
  status := r.status
  created_at := r.created_at
  resolution_rules := r.resolution_rules
  accepted_by := r.accepted_by
  current_round := r.current_round
  round_respondents := r.round_respondents

/-- `AIMPRoom.from_json` (protocol.py lines 362-381). -/
def from_json (w : RoomWire) : AIMPRoom where
  room_id := w.room_id
  topic := w.topic
  deadline := w.deadline
  participants := w.participants
  initiator := w.initiator
  artifacts := w.artifacts
  transcript := w.transcript
  status := w.status
  created_at := w.created_at
  resolution_rules := w.resolution_rules
  accepted_by := w.accepted_by
  current_round := w.current_round
  round_respondents := w.round_respondents

/-- `is_past_deadline`: `time.time() > deadline`, with the clock injected. -/
def is_past_deadline (r : AIMPRoom) (now : Int) : Bool := now > r.deadline

/-- `all_accepted`: false on an empty participant list, else every
participant sent ACCEPT. -/
def all_accepted (r : AIMPRoom) : Bool :=
  !r.participants.isEmpty && r.participants.all (fun p => p ∈ r.accepted_by)

/-- `add_to_transcript`: entry version is the new transcript length. -/
def add_to_transcript (r : AIMPRoom) (from_agent action summary : String) : AIMPRoom :=
  { r with
    transcript :=
      r.transcript ++ [⟨(r.transcript.length : Int) + 1, from_agent, action, summary⟩] }

/-- `record_round_reply` (deduped append). -/
def record_round_reply (r : AIMPRoom) (from_email : String) : AIMPRoom :=
  if from_email ∈ r.round_respondents then r
  else { r with round_respondents := r.round_respondents ++ [from_email] }

/-- `is_round_complete` (protocol.py lines 411-420, identical to the Session
version). -/
def is_round_complete (r : AIMPRoom) : Bool :=
  let expected :=
    if r.current_round = 1 then r.participants.filter (fun p => p ≠ r.initiator)
    else r.participants
  !expected.isEmpty && expected.all (fun e => e ∈ r.round_respondents)

/-- `advance_round`. -/
def advance_round (r : AIMPRoom) : AIMPRoom :=
  { r with current_round := r.current_round + 1, round_respondents := [] }

end AIMPRoom

/-! ### handlers/session_handler.py — SessionMixin round processing

A pending row (§3.3) carries either a parsed `protocol.json` (its
`proposals` part is the only part `_apply_votes_from_protocol` reads) or a
free-text body; in the latter case the LLM oracle output
`details["votes"] : {item: choice|None}` is carried as data. -/

/-- What `_process_session_round` extracts from one pending row. -/
inductive PendingPayload where
  /-- `protocol_json` parsed: the `proposals` mapping of the attachment. -/
  | proto (proposals : List (String × ProposalItemWire))
  /-- no attachment: the LLM oracle's `{item → choice}` for the body. -/
  | human (votes : List (String × Option String))
deriving Repr, DecidableEq

/-- A pending-email row as handed to `_process_session_round`. -/
structure PendingMsg where
  from_addr : String
  payload : PendingPayload
deriving Repr, DecidableEq

/-- `_apply_votes_from_protocol` (session_handler.py lines 205-217): merge
non-empty options, then apply the sender's own vote when truthy, swallowing
`ValueError`/`KeyError` (the partially-mutated session is kept). -/
def protoItemStep (from_addr : String) (acc : AIMPSession)
    (itemData : String × ProposalItemWire) : AIMPSession :=
  let acc1 := itemData.2.options.foldl
    (fun a opt => if opt ≠ "" then a.add_option itemData.1 opt else a) acc
  match dictGet itemData.2.votes from_addr with
  | some (some choice) =>
    if choice ≠ "" then (acc1.apply_vote from_addr itemData.1 choice).1 else acc1
  | _ => acc1

def applyVotesFromProtocol (s : AIMPSession) (proto : List (String × ProposalItemWire))
    (from_addr : String) : AIMPSession :=
  proto.foldl (protoItemStep from_addr) s

/-- One `{item: choice}` entry of the human branch of
`_process_session_round` (session_handler.py lines 245-251): try
`apply_vote`; on `ValueError`/`KeyError` add the choice as an option and
vote again. -/
def humanVoteStep (s : AIMPSession) (from_addr item : String)
    (choice : Option String) : AIMPSession :=
  match choice with
  | some c =>
    if c ≠ "" then
      let r := s.apply_vote from_addr item c
      match r.2 with
      | none => r.1
      | some _ => ((r.1.add_option item c).apply_vote from_addr item c).1
    else s
  | none => s

/-- The human branch of `_process_session_round` for one pending row. -/
def foldHumanVotes (s : AIMPSession) (from_addr : String)
    (votes : List (String × Option String)) : AIMPSession :=
  votes.foldl (fun acc iv => humanVoteStep acc from_addr iv.1 iv.2) s

/-- The handling of one pending row by `_process_session_round`. -/
def sessionPendingStep (acc : AIMPSession) (e : PendingMsg) : AIMPSession :=
  match e.payload with
  | PendingPayload.proto ps => applyVotesFromProtocol acc ps e.from_addr
  | PendingPayload.human vs => foldHumanVotes acc e.from_addr vs

/-- The message fold of `_process_session_round` (lines 239-251). -/
def foldSessionPending (s : AIMPSession) (pending : List PendingMsg) : AIMPSession :=
  pending.foldl sessionPendingStep s

/-- `_process_session_round` (session_handler.py lines 235-277), state and
event type only (email bodies are formatting).  Fold all pending rows, then
`advance_round`, then decide: fully resolved → confirm; else stalled →
escalate; else counter reply. -/
def processSessionRound (agent_email : String) (s : AIMPSession)
    (pending : List PendingMsg) : AIMPSession × String :=
  let s2 := (foldSessionPending s pending).advance_round
  if s2.is_fully_resolved then
    (({ s2 with status := "confirmed" }).bump_version.add_history
        agent_email "confirm" "所有议题达成共识", "consensus")
  else if s2.is_stalled then
    ({ s2 with status := "escalated" }, "escalation")
  else
    ((s2.bump_version).add_history agent_email "counter"
      ("第 " ++ toString s2.current_round ++ " 轮汇总"), "reply_sent")

/-! ### handlers/room_handler.py — RoomMixin -/

/-- The LLM oracle "parse amendment" output
`{action, changes, reason, new_content}` (§6.3). -/
structure AmendmentData where
  action : String
  changes : String
  reason : String
  new_content : Option String
deriving Repr, DecidableEq

/-! Python string primitives (`lower`, `upper`, `strip`, `startswith`,
`split("@")[0]`) are modelled directly on the character list, because the
corresponding `String` library functions do not reduce in the kernel. -/

/-- `s.lower()`. -/
def pyLower (s : String) : String := String.mk (s.data.map Char.toLower)

/-- `s.upper()`. -/
def pyUpper (s : String) : String := String.mk (s.data.map Char.toUpper)

/-- `s.strip()`. -/
def pyStrip (s : String) : String :=
  String.mk (((s.data.dropWhile Char.isWhitespace).reverse.dropWhile
    Char.isWhitespace).reverse)

/-- Whether `needle` starts `hay` (on character lists). -/
def charListStarts : List Char → List Char → Bool
  | _, [] => true
  | [], _ :: _ => false
  | h :: hs, n :: ns => h = n && charListStarts hs ns

/-- `s.startswith(pre)`. -/
def pyStartsWith (s pre : String) : Bool := charListStarts s.data pre.data

/-- `email.split("@")[0]`: everything before the first `@`. -/
def splitLocal (e : String) : String :=
  String.mk (e.data.takeWhile (fun c => c ≠ Char.ofNat 64))

/-- `summary = changes or reason or fallback` (Python `or` chain on strings). -/
def orChain (changes reason fallback : String) : String :=
  if changes ≠ "" then changes else if reason ≠ "" then reason else fallback

/-- `new_content` truthiness: present and non-empty. -/
def contentTruthy : Option String → Bool
  | some c => c ≠ ""
  | none => false

/-- `_apply_room_action` (room_handler.py lines 187-214): ACCEPT appends the
sender to `accepted_by`; PROPOSE/AMEND with truthy `new_content` stores a new
artifact named `proposal_<senderLocal>_<now>.txt`; a transcript entry is
appended regardless. -/
def applyRoomAction (emailToName : String → String) (now : Int) (room : AIMPRoom)
    (sender : String) (d : AmendmentData) : AIMPRoom :=
  let action := pyUpper d.action
  let r1 :=
    if action = "ACCEPT" then
      if sender ∈ room.accepted_by then room
      else { room with accepted_by := room.accepted_by ++ [sender] }
    else if (action = "PROPOSE" ∨ action = "AMEND") ∧ contentTruthy d.new_content then
      let artifact_name := "proposal_" ++ splitLocal sender ++ "_" ++ toString now ++ ".txt"
      let art := Artifact.mk artifact_name "text/plain" (d.new_content.getD "") sender now
      { room with artifacts := dictSet room.artifacts artifact_name art }
    else room
  r1.add_to_transcript sender action
    (emailToName sender ++ ": " ++ orChain d.changes d.reason "")

/-- A pending row for a room round: sender plus the oracle's parsed
amendment for its body. -/
structure RoomPending where
  from_addr : String
  amendment : AmendmentData
deriving Repr, DecidableEq

/-- `_finalize_room` state change (room_handler.py lines 279-293): status ←
finalized plus a FINALIZED transcript entry naming the trigger.  Minutes
generation and the outbound emails are formatting/transport. -/
def finalizeRoom (hub_email : String) (room : AIMPRoom) : AIMPRoom :=
  let r1 := { room with status := "finalized" }
  r1.add_to_transcript hub_email "FINALIZED"
    ("Room finalized. Trigger: "
      ++ (if r1.all_accepted then "all_accepted" else "deadline_expired"))

/-- `_process_room_round` (room_handler.py lines 245-277): fold the pending
rows (non-participants skipped case-insensitively), `advance_round`, then
finalize when all accepted or past deadline, else append an aggregate
transcript entry. -/
def roomPendingStep (emailToName : String → String) (now : Int) (acc : AIMPRoom)
    (e : RoomPending) : AIMPRoom :=
  if acc.participants.map pyLower |>.contains (pyLower e.from_addr) then
    applyRoomAction emailToName now acc e.from_addr e.amendment
  else acc

def processRoomRound (agent_email hub_email : String) (emailToName : String → String)
    (now : Int) (room : AIMPRoom) (pending : List RoomPending) : AIMPRoom × String :=
  let r1 := pending.foldl (roomPendingStep emailToName now) room
  let r2 := r1.advance_round
  if r2.all_accepted || r2.is_past_deadline now then
    (finalizeRoom hub_email r2, "room_finalized")
  else
    (r2.add_to_transcript agent_email "aggregate"
      ("第 " ++ toString r2.current_round ++ " 轮汇总"), "room_round")

/-! ### hub_agent.py — `_handle_room_email` (lines 1073-1147)

The immediate (non-round-gated) Phase 2 handler present in src: load the
room, drop the message when the room is missing, not open, or the sender is
not a participant; otherwise apply the parsed amendment, append a transcript
entry, save, and finalize when everyone has accepted. -/

/-- Result: the room as stored after handling (`none` when no room was
found) and the emitted event types. -/
def handleRoomEmail (emailToName : String → String) (now : Int) (hub_email : String)
    (roomLoaded : Option AIMPRoom) (sender body : String) (amendment : AmendmentData) :
    Option AIMPRoom × List String :=
  match roomLoaded with
  | none => (none, [])
  | some room =>
    if room.status ≠ "open" then (some room, [])
    else if !(room.participants.map pyLower |>.contains (pyLower sender)) then
      (some room, [])
    else
      let action := pyUpper amendment.action
      let r1 :=
        if action = "ACCEPT" then
          if sender ∈ room.accepted_by then room
          else { room with accepted_by := room.accepted_by ++ [sender] }
        else if (action = "PROPOSE" ∨ action = "AMEND")
            ∧ contentTruthy amendment.new_content then
          let artifact_name :=
            "proposal_" ++ splitLocal sender ++ "_" ++ toString now ++ ".txt"
          let art := Artifact.mk artifact_name "text/plain"
            (amendment.new_content.getD "") sender now
          { room with artifacts := dictSet room.artifacts artifact_name art }
        else room
      let r2 := r1.add_to_transcript sender action
        (emailToName sender ++ ": "
          ++ orChain amendment.changes amendment.reason (body.take 100))
      if r2.all_accepted then
        (some (finalizeRoom hub_email r2), ["room_finalized"])
      else (some r2, ["room_amendment_received"])

/-! ### agent.py — `_handle_human_email` (lines 198-239)

The base agent's degradation-mode handler for a human reply carrying a
session marker.  The LLM oracle output `(action, votes)` is data.  Note it
never inspects `session.status`. -/

/-- `_send_confirm` state change (agent.py lines 277-285): status ←
confirmed, bump, confirm history entry. -/
def sendConfirm (agent_email : String) (s : AIMPSession) : AIMPSession :=
  ({ s with status := "confirmed" }).bump_version.add_history
    agent_email "confirm" "All issues have reached consensus / 所有议题已达成共识"

/-- `_send_reply` state change (agent.py lines 243-251): bump plus a history
entry with `summary = reason or action`. -/
def sendReply (agent_email action reason : String) (s : AIMPSession) : AIMPSession :=
  s.bump_version.add_history agent_email action (if reason ≠ "" then reason else action)

/-- `_handle_human_email` on a loaded session: apply the oracle's votes
(swallowing `ValueError` only — an uncaught `KeyError` aborts the handler
before anything is saved, modelled as `none`), then confirm / escalate /
counter-reply.  Every `some` result is saved to the store by the code. -/
def handleHumanEmail (agent_email : String) (s : AIMPSession) (sender : String)
    (action : String) (votes : List (String × Option String)) (reason : String := "") :
    Option (AIMPSession × String) :=
  let folded := votes.foldl
    (fun acc iv =>
      match acc with
      | none => none
      | some a =>
        match iv.2 with
        | some c =>
          if c ≠ "" then
            let r := a.apply_vote sender iv.1 c
            match r.2 with
            | some PyErr.keyError => none
            | _ => some r.1
          else some a
        | none => some a)
    (some s)
  match folded with
  | none => none
  | some s1 =>
    if s1.is_fully_resolved then some (sendConfirm agent_email s1, "consensus")
    else if action = "escalate" then some ({ s1 with status := "escalated" }, "escalation")
    else some (sendReply agent_email action reason s1, "reply_sent")

/-! ### hub_agent.py — invite codes (lines 1575-1624)

Dates enter only through `date.today() > date.fromisoformat(expires)`, so
they are modelled as day ordinals (`Int`).  The `expires` slot of a record
is `none` when the config key is absent or falsy, `some none` when the
stored string does not parse (the code then skips the expiry check), and
`some (some d)` when it parses to day `d`. -/

/-- One entry of the `invite_codes` config list.  `max_uses` and `used`
default to 0 when the config omits them (`ic.get(..., 0)`). -/
structure InviteCode where
  code : String
  expires : Option (Option Int)
  max_uses : Int
  used : Int
deriving Repr, DecidableEq

/-- `_validate_invite_code` (hub_agent.py lines 1575-1594): the first record
with a matching code decides; expired (parseable `expires` strictly before
today) or exhausted (`max_uses > 0` and `used ≥ max_uses`) records are
rejected, otherwise the record is returned. -/
def validateInviteCode (today : Int) (codes : List InviteCode) (code : String) :
    Option InviteCode :=
  match codes.find? (fun ic => ic.code = code) with
  | none => none
  | some ic =>
    let expired : Bool :=
      match ic.expires with
      | some (some d) => decide (today > d)
      | _ => false
    if expired then none
    else if ic.max_uses > 0 ∧ ic.used ≥ ic.max_uses then none
    else some ic

/-- `_consume_invite_code` (hub_agent.py lines 1618-1624): increment `used`
of the first record with a matching code. -/
def consumeInviteCode (codes : List InviteCode) (code : String) : List InviteCode :=
  match codes with
  | [] => []
  | ic :: rest =>
    if ic.code = code then { ic with used := ic.used + 1 } :: rest
    else ic :: consumeInviteCode rest code

/-- `_handle_invite_request` (hub_agent.py lines 1488-1573), state and event
type only: already-known senders get a reminder, an invalid code gets the
"code invalid" reply and an `invite_rejected` event, a valid code registers
the sender, consumes the code and emits `invite_accepted`. -/
def handleInviteRequest (alreadyKnown : Bool) (today : Int)
    (codes : List InviteCode) (code : String) : String × List InviteCode :=
  if alreadyKnown then ("already_registered", codes)
  else
    match validateInviteCode today codes code with
    | none => ("invite_rejected", codes)
    | some _ => ("invite_accepted", consumeInviteCode codes code)

/-! ### hub_agent.py — auto-reply / bounce suppression (lines 1418-1438) -/

/-- `_AUTO_REPLY_LOCALS` (all 14 entries of the code's frozenset). -/
def autoReplyLocals : List String :=
  ["no-reply", "noreply", "no_reply", "mailer-daemon", "mailer_daemon",
   "postmaster", "bounce", "bounces", "do-not-reply", "donotreply",
   "auto-reply", "autoreply", "notifications", "notification"]

/-- The 12-entry local-part set listed in spec §4.5.3. -/
def specAutoReplyLocals : List String :=
  ["no-reply", "noreply", "mailer-daemon", "postmaster", "bounce", "bounces",
   "do-not-reply", "donotreply", "auto-reply", "autoreply", "notifications",
   "notification"]

/-- `_AUTO_REPLY_SUBJECT_PREFIXES`. -/
def autoReplySubjectStarts : List String :=
  ["out of office", "automatic reply", "auto reply", "autoreply",
   "undeliverable", "delivery status notification", "delivery failure",
   "mail delivery failed", "returned mail", "failure notice"]

/-- Whether `needle` occurs somewhere inside `hay`. -/
def charListHasSub : List Char → List Char → Bool
  | [], needle => needle.isEmpty
  | c :: t, needle => charListStarts (c :: t) needle || charListHasSub t needle

/-- `p in local` (substring containment). -/
def strContains (hay needle : String) : Bool :=
  charListHasSub hay.data needle.data

/-- `_is_auto_reply` (hub_agent.py lines 1429-1438): local-part set
membership, then same-family substring check, then (for a truthy subject)
case-insensitive trimmed subject-start check. -/
def isAutoReply (from_email subject : String) : Bool :=
  let lp := splitLocal (pyLower from_email)
  if lp ∈ autoReplyLocals then true
  else if ["no-reply", "noreply", "mailer-daemon", "do-not-reply"].any
      (fun p => strContains lp p) then true
  else if subject ≠ ""
      ∧ autoReplySubjectStarts.any
          (fun p => pyStartsWith (pyStrip (pyLower subject)) p) then
    true
  else false

/-- The unknown-sender branch of `AIMPHubAgent.poll` (hub_agent.py lines
627-639): an auto-reply match is dropped (no reply of any kind), otherwise
an invite-pattern subject goes to invite handling, otherwise the throttled
registration guidance is sent. -/
def pollUnknownSenderAction (sender subject : String) (isInviteSubject : Bool) : String :=
  if isAutoReply sender subject then "drop"
  else if isInviteSubject then "invite"
  else "guidance"

/-! ## Shared lemmas about the dict model -/

theorem dictGet_nil (k : String) : dictGet ([] : List (String × α)) k = none := rfl

theorem dictGet_cons (kv : String × α) (t : List (String × α)) (k : String) :
    dictGet (kv :: t) k = if kv.1 = k then some kv.2 else dictGet t k := by
  by_cases h : kv.1 = k <;> simp [dictGet, List.find?_cons, h]

theorem dictHasKey_cons (kv : String × α) (t : List (String × α)) (k : String) :
    dictHasKey (kv :: t) k = (decide (kv.1 = k) || dictHasKey t k) := by
  simp [dictHasKey]

theorem dictHasKey_eq_isSome (l : List (String × α)) (k : String) :
    dictHasKey l k = (dictGet l k).isSome := by
  induction l with
  | nil => rfl
  | cons kv t ih =>
    rw [dictHasKey_cons, dictGet_cons]
    by_cases h : kv.1 = k
    · simp [h]
    · simp only [h, decide_False, Bool.false_or, if_neg h]
      simpa [dictHasKey] using ih

theorem dictGet_append (l m : List (String × α)) (k : String) :
    dictGet (l ++ m) k = (dictGet l k <|> dictGet m k) := by
  induction l with
  | nil => simp [dictGet]
  | cons kv t ih =>
    rw [List.cons_append, dictGet_cons, dictGet_cons]
    by_cases h : kv.1 = k <;> simp [h, ih]

theorem dictGet_mapUpdate_self (l : List (String × α)) (k : String) (v : α) :
    dictGet (l.map (fun kv => if kv.1 = k then (k, v) else kv)) k
      = if dictHasKey l k then some v else none := by
  induction l with
  | nil => rfl
  | cons kv t ih =>
    by_cases h : kv.1 = k
    · simp [dictGet_cons, dictHasKey_cons, h]
    · rw [List.map_cons, if_neg h, dictGet_cons, if_neg h, dictHasKey_cons, ih]
      simp [h]

theorem dictGet_mapUpdate_ne (l : List (String × α)) (k k2 : String) (v : α)
    (hne : k2 ≠ k) :
    dictGet (l.map (fun kv => if kv.1 = k then (k, v) else kv)) k2
      = dictGet l k2 := by
  induction l with
  | nil => rfl
  | cons kv t ih =>
    by_cases h : kv.1 = k
    · rw [List.map_cons, if_pos h, dictGet_cons, dictGet_cons, ih,
        if_neg (fun hh : k = k2 => hne hh.symm),
        if_neg (fun hh : kv.1 = k2 => hne (hh.symm.trans h))]
    · rw [List.map_cons, if_neg h, dictGet_cons, dictGet_cons, ih]

theorem dictGet_none_of_not_hasKey (l : List (String × α)) (k : String)
    (ha : dictHasKey l k = false) : dictGet l k = none := by
  cases hg : dictGet l k with
  | none => rfl
  | some w =>
    exfalso
    have hh := dictHasKey_eq_isSome l k
    rw [hg, ha] at hh
    simp at hh

theorem dictGet_set_self (l : List (String × α)) (k : String) (v : α) :
    dictGet (dictSet l k v) k = some v := by
  unfold dictSet
  by_cases ha : l.any (fun kv => kv.1 = k)
  · rw [if_pos ha, dictGet_mapUpdate_self]
    simp [dictHasKey, ha]
  · rw [if_neg ha, dictGet_append,
      dictGet_none_of_not_hasKey l k (by unfold dictHasKey; exact Bool.eq_false_iff.mpr ha)]
    simp [dictGet_cons]

theorem dictGet_set_ne (l : List (String × α)) (k k2 : String) (v : α)
    (h : k2 ≠ k) : dictGet (dictSet l k v) k2 = dictGet l k2 := by
  unfold dictSet
  by_cases ha : l.any (fun kv => kv.1 = k)
  · rw [if_pos ha, dictGet_mapUpdate_ne _ _ _ _ h]
  · rw [if_neg ha, dictGet_append, dictGet_cons,
      if_neg (fun hh : k = k2 => h hh.symm), dictGet_nil]
    cases hg : dictGet l k2 <;> simp

/-! ## C7 — wire round-trip -/

/-- C7: for every Session whose proposals contain the `time` and `location`
items (true of every session either constructor produces), `from_json ∘
to_json` is the identity on all protocol fields, and for every Room it is
the identity outright — exact equality, hence in particular equality modulo
history and option ordering. -/
theorem c7_wire_round_trip :
    (∀ s : AIMPSession, dictHasKey s.proposals "time" = true →
      dictHasKey s.proposals "location" = true →
      AIMPSession.from_json s.to_json = s)
    ∧ (∀ r : AIMPRoom, AIMPRoom.from_json r.to_json = r) := by
  constructor
  · intro s ht hl
    have hmap : (s.proposals.map (fun ni => (ni.1, ProposalItem.to_dict ni.2))).map
        (fun nw => (nw.1, ProposalItem.from_dict nw.2)) = s.proposals := by
      rw [List.map_map]
      have hcomp : ((fun nw : String × ProposalItemWire =>
            (nw.1, ProposalItem.from_dict nw.2)) ∘
          fun ni : String × ProposalItem => (ni.1, ni.2.to_dict)) = id := by
        funext ni; rfl
      rw [hcomp, List.map_id]
    unfold AIMPSession.from_json AIMPSession.to_json
    simp only [hmap, ht, hl, if_true]
  · intro r
    rfl

theorem c7_wire_round_trip_witness :
    AIMPSession.from_json (AIMPSession.init "s1" "topic" ["a@x", "b@x"] "a@x").to_json
        = AIMPSession.init "s1" "topic" ["a@x", "b@x"] "a@x"
      ∧ AIMPRoom.from_json (AIMPRoom.mk "r1" "t" 100 ["a@x"] "a@x" [] [] "open"
          50 "majority" [] 1 []).to_json
        = AIMPRoom.mk "r1" "t" 100 ["a@x"] "a@x" [] [] "open" 50 "majority" [] 1 [] :=
  ⟨c7_wire_round_trip.1 _ rfl rfl, c7_wire_round_trip.2 _⟩

/-! ## C3 — round completion rules -/

/-- The claim's reading of round-1 completeness is refuted when the
initiator is the only participant: every non-initiator has (vacuously)
replied, yet `is_round_complete()` returns false because the list of
expected repliers is empty. -/
theorem c3_counterexample :
    (AIMPSession.mk "s" "t" ["a@x"] "a@x" 0 [] [] "negotiating" 1 []).current_round = 1
      ∧ (∀ p ∈ (AIMPSession.mk "s" "t" ["a@x"] "a@x" 0 [] [] "negotiating" 1
          []).participants,
          p ≠ (AIMPSession.mk "s" "t" ["a@x"] "a@x" 0 [] [] "negotiating" 1 []).initiator →
          p ∈ (AIMPSession.mk "s" "t" ["a@x"] "a@x" 0 [] [] "negotiating" 1
            []).round_respondents)
      ∧ (AIMPSession.mk "s" "t" ["a@x"] "a@x" 0 [] [] "negotiating" 1
          []).is_round_complete = false := by
  refine ⟨rfl, ?_, rfl⟩
  intro p hp hne
  simp only [AIMPSession.mk] at hp hne ⊢
  exact absurd (List.mem_singleton.mp hp) hne

/-- Shared shape of both `is_round_complete` bodies. -/
theorem roundCompleteAux (expected respondents : List String) :
    (!expected.isEmpty && expected.all fun e => decide (e ∈ respondents)) = true ↔
      expected ≠ [] ∧ ∀ p ∈ expected, p ∈ respondents := by
  simp [List.isEmpty_iff, List.all_eq_true]

/-- The filtered expected list of round 1, unfolded to claim vocabulary. -/
theorem roundOneExpected (participants respondents : List String) (initiator : String) :
    ((participants.filter (fun p => p ≠ initiator) ≠ [] ∧
        ∀ p ∈ participants.filter (fun p => p ≠ initiator), p ∈ respondents) ↔
      (∃ p ∈ participants, p ≠ initiator) ∧
        ∀ p ∈ participants, p ≠ initiator → p ∈ respondents) := by
  constructor
  · rintro ⟨hne, hall⟩
    constructor
    · rcases List.exists_mem_of_ne_nil _ hne with ⟨x, hx⟩
      rcases List.mem_filter.mp hx with ⟨hx1, hx2⟩
      exact ⟨x, hx1, by simpa using hx2⟩
    · intro p hp hpi
      exact hall p (List.mem_filter.mpr ⟨hp, by simpa using hpi⟩)
  · rintro ⟨⟨x, hx, hxi⟩, hall⟩
    constructor
    · intro hnil
      have hmem : x ∈ participants.filter (fun p => p ≠ initiator) :=
        List.mem_filter.mpr ⟨hx, by simpa using hxi⟩
      rw [hnil] at hmem
      exact absurd hmem (List.not_mem_nil x)
    · intro p hp
      rcases List.mem_filter.mp hp with ⟨hp1, hp2⟩
      exact hall p hp1 (by simpa using hp2)

/-- C3 as amended: completeness additionally requires the expected-replier
set to be nonempty — for round 1 at least one non-initiator participant, for
round ≥ 2 a nonempty participant list (the empty-participants clause of the
claim is the special case). -/
theorem c3_round_completion :
    (∀ s : AIMPSession,
      (s.current_round = 1 →
        (s.is_round_complete = true ↔
          (∃ p ∈ s.participants, p ≠ s.initiator) ∧
            ∀ p ∈ s.participants, p ≠ s.initiator → p ∈ s.round_respondents))
      ∧ (2 ≤ s.current_round →
        (s.is_round_complete = true ↔
          s.participants ≠ [] ∧ ∀ p ∈ s.participants, p ∈ s.round_respondents))
      ∧ (s.participants = [] → s.is_round_complete = false))
    ∧ (∀ r : AIMPRoom,
      (r.current_round = 1 →
        (r.is_round_complete = true ↔
          (∃ p ∈ r.participants, p ≠ r.initiator) ∧
            ∀ p ∈ r.participants, p ≠ r.initiator → p ∈ r.round_respondents))
      ∧ (2 ≤ r.current_round →
        (r.is_round_complete = true ↔
          r.participants ≠ [] ∧ ∀ p ∈ r.participants, p ∈ r.round_respondents))
      ∧ (r.participants = [] → r.is_round_complete = false)) := by
  constructor
  · intro s
    refine ⟨?_, ?_, ?_⟩
    · intro h1
      unfold AIMPSession.is_round_complete
      rw [if_pos h1, roundCompleteAux, roundOneExpected]
    · intro h2
      unfold AIMPSession.is_round_complete
      rw [if_neg (by omega : ¬s.current_round = 1), roundCompleteAux]
    · intro hemp
      simp [AIMPSession.is_round_complete, hemp]
  · intro r
    refine ⟨?_, ?_, ?_⟩
    · intro h1
      unfold AIMPRoom.is_round_complete
      rw [if_pos h1, roundCompleteAux, roundOneExpected]
    · intro h2
      unfold AIMPRoom.is_round_complete
      rw [if_neg (by omega : ¬r.current_round = 1), roundCompleteAux]
    · intro hemp
      simp [AIMPRoom.is_round_complete, hemp]

theorem c3_round_completion_witness :
    (AIMPSession.mk "s" "t" ["a@x", "b@x"] "a@x" 0 [] [] "negotiating" 1
        ["b@x"]).is_round_complete = true
      ∧ (AIMPRoom.mk "r" "t" 9 [] "a@x" [] [] "open" 1 "majority" [] 2
        []).is_round_complete = false :=
  ⟨((c3_round_completion.1 _).1 rfl).mpr (by decide),
   (c3_round_completion.2 _).2.2 rfl⟩

/-! ## C4 — consensus definition and determinism -/

theorem filterMapSndFull (l : List (String × Option String))
    (h : (l.filterMap (fun kv => kv.2)).length = l.length) :
    ∀ kv ∈ l, kv.2.isSome = true := by
  induction l with
  | nil => intro kv hkv; simp at hkv
  | cons kv t ih =>
    intro kv2 hkv2
    cases hv : kv.2 with
    | none =>
      exfalso
      rw [List.filterMap_cons, hv] at h
      have hle := List.length_filterMap_le (fun kv : String × Option String => kv.2) t
      simp at h
      omega
    | some v =>
      rcases List.mem_cons.mp hkv2 with h1 | h1
      · subst h1; simp [hv]
      · refine ih ?_ kv2 h1
        rw [List.filterMap_cons, hv] at h
        simpa using h

theorem filterMapSndConst (l : List (String × Option String)) (o : String)
    (hall : ∀ kv ∈ l, kv.2 = some o) :
    l.filterMap (fun kv => kv.2) = List.replicate l.length o := by
  induction l with
  | nil => rfl
  | cons kv t ih =>
    have hk := hall kv (by simp)
    rw [List.filterMap_cons, hk]
    simp [List.replicate_succ, ih (fun kv2 h2 => hall kv2 (by simp [h2]))]

theorem dedupSingleton (l : List String) (o : String) (hne : l ≠ [])
    (hall : ∀ x ∈ l, x = o) : l.dedup = [o] := by
  have honemem : o ∈ l.dedup := by
    rcases List.exists_mem_of_ne_nil _ hne with ⟨x, hx⟩
    have hxo := hall x hx
    subst hxo
    exact List.mem_dedup.mpr hx
  have hallD : ∀ x ∈ l.dedup, x = o := fun x hx => hall x (List.mem_dedup.mp hx)
  have hnd := l.nodup_dedup
  cases hd : l.dedup with
  | nil => rw [hd] at honemem; exact absurd honemem (List.not_mem_nil o)
  | cons a t =>
    rw [hd] at hallD hnd
    have ha : a = o := hallD a (List.mem_cons_self a t)
    cases t with
    | nil => rw [ha]
    | cons b t2 =>
      have hb : b = o := hallD b (by simp)
      rw [List.nodup_cons] at hnd
      exact absurd (by rw [ha, ← hb]; simp : a ∈ b :: t2) hnd.1

/-- The item-level iff behind C4: `check_consensus` returns `some o` exactly
when the vote dict is nonempty and every slot holds `o`. -/
theorem check_consensus_iff (it : ProposalItem) (o : String) :
    it.check_consensus = some o ↔
      it.votes ≠ [] ∧ ∀ kv ∈ it.votes, kv.2 = some o := by
  constructor
  · intro h
    simp only [ProposalItem.check_consensus] at h
    split_ifs at h with h1 h2
    · have hvne : it.votes ≠ [] := by
        intro hnil
        rw [hnil] at h1
        simp at h1
      refine ⟨hvne, ?_⟩
      have hfull := filterMapSndFull it.votes h2.1
      rcases List.length_eq_one.mp h2.2 with ⟨a, hA⟩
      have hmemD : ∀ x ∈ it.votes.filterMap (fun kv => kv.2), x = a := by
        intro x hx
        have hxD := List.mem_dedup.mpr hx
        rw [hA] at hxD
        exact List.mem_singleton.mp hxD
      have hae : (it.votes.filterMap (fun kv => kv.2)).headD "" = o :=
        Option.some_injective _ h
      have hhead : (it.votes.filterMap (fun kv => kv.2)).headD ""
          ∈ it.votes.filterMap (fun kv => kv.2) := by
        cases hfm : it.votes.filterMap (fun kv => kv.2) with
        | nil => rw [hfm] at h1; simp at h1
        | cons c t => simp
      have hao : a = o := by
        rw [← hae]
        exact (hmemD _ hhead).symm
      intro kv hkv
      have hs := hfull kv hkv
      rcases Option.isSome_iff_exists.mp hs with ⟨v, hv⟩
      have hvmem : v ∈ it.votes.filterMap (fun kv => kv.2) :=
        List.mem_filterMap.mpr ⟨kv, hkv, hv⟩
      rw [hv, hmemD v hvmem, hao]
  · rintro ⟨hne, hall⟩
    have hrep := filterMapSndConst it.votes o hall
    have hlen : it.votes.length ≠ 0 := by
      intro h0
      exact hne (List.length_eq_zero.mp h0)
    have hrepne : List.replicate it.votes.length o ≠ [] := by
      rw [Ne, List.replicate_eq_nil_iff]
      exact hlen
    have hded : (List.replicate it.votes.length o).dedup = [o] :=
      dedupSingleton _ o hrepne (fun x hx => List.eq_of_mem_replicate hx)
    have hhead : (List.replicate it.votes.length o).headD "" = o := by
      cases hn : it.votes.length with
      | zero => exact absurd hn hlen
      | succ m => rw [List.replicate_succ]; rfl
    simp only [ProposalItem.check_consensus]
    rw [hrep, if_neg (by simp [List.isEmpty_iff]; exact hne),
      if_pos ⟨by simp, by rw [hded]; rfl⟩, hhead]

/-- C4: a `ProposalItem` has consensus on `o` iff its vote dict is nonempty
and every slot is filled with `o`; a session is fully resolved iff every
agenda item has consensus; both are pure functions of the votes /
(participants, proposals) alone, invariant under any reordering of the vote
dict (so vote insertion order cannot matter). -/
theorem c4_consensus :
    (∀ (it : ProposalItem) (o : String),
      it.check_consensus = some o ↔
        it.votes ≠ [] ∧ ∀ kv ∈ it.votes, kv.2 = some o)
    ∧ (∀ it1 it2 : ProposalItem, it1.votes.Perm it2.votes →
        it1.check_consensus = it2.check_consensus)
    ∧ (∀ s : AIMPSession,
        s.is_fully_resolved = true ↔ ∀ nv ∈ s.check_consensus, nv.2 ≠ none)
    ∧ (∀ s1 s2 : AIMPSession, s1.participants = s2.participants →
        s1.proposals = s2.proposals → s1.check_consensus = s2.check_consensus) := by
  refine ⟨check_consensus_iff, ?_, ?_, ?_⟩
  · intro it1 it2 hperm
    cases hc : it1.check_consensus with
    | some o =>
      rcases (check_consensus_iff it1 o).mp hc with ⟨hne, hall⟩
      exact ((check_consensus_iff it2 o).mpr
        ⟨fun hnil => hne (List.Perm.eq_nil (hnil ▸ hperm)),
         fun kv hkv => hall kv (hperm.mem_iff.mpr hkv)⟩).symm
    | none =>
      cases hc2 : it2.check_consensus with
      | none => rfl
      | some o =>
        rcases (check_consensus_iff it2 o).mp hc2 with ⟨hne, hall⟩
        have hcontra := (check_consensus_iff it1 o).mpr
          ⟨fun hnil => hne (List.Perm.eq_nil (hnil ▸ hperm.symm)),
           fun kv hkv => hall kv (hperm.mem_iff.mp hkv)⟩
        rw [hc] at hcontra
        exact absurd hcontra (by simp)
  · intro s
    unfold AIMPSession.is_fully_resolved
    simp [List.all_eq_true, Option.isSome_iff_ne_none]
  · intro s1 s2 hp hpr
    unfold AIMPSession.check_consensus
    rw [hpr]

theorem c4_consensus_witness :
    (ProposalItem.mk ["Mon 10am"]
        [("a@x", some "Mon 10am"), ("b@x", some "Mon 10am")]).check_consensus
      = some "Mon 10am" :=
  (c4_consensus.1 _ _).mpr (by decide)

/-! ## Lemmas about the vote operations -/

theorem dictGet_mapVal (l : List (String × α)) (f : α → β) (k : String) :
    dictGet (l.map (fun kv => (kv.1, f kv.2))) k = (dictGet l k).map f := by
  induction l with
  | nil => rfl
  | cons kv t ih =>
    rw [List.map_cons, dictGet_cons, dictGet_cons]
    by_cases h : kv.1 = k <;> simp [h, ih]

theorem dictGet_mapIfKey_self (l : List (String × α)) (k : String) (f : α → α) :
    dictGet (l.map (fun ni => if ni.1 = k then (ni.1, f ni.2) else ni)) k
      = (dictGet l k).map f := by
  induction l with
  | nil => rfl
  | cons kv t ih =>
    by_cases h : kv.1 = k
    · simp [dictGet_cons, h]
    · simp [dictGet_cons, h, ih]

theorem dictGet_mapIfKey_ne (l : List (String × α)) (k k2 : String) (f : α → α)
    (h : k2 ≠ k) :
    dictGet (l.map (fun ni => if ni.1 = k then (ni.1, f ni.2) else ni)) k2
      = dictGet l k2 := by
  induction l with
  | nil => rfl
  | cons kv t ih =>
    by_cases hk : kv.1 = k
    · have hne2 : ¬kv.1 = k2 := fun hh => h (hh.symm.trans hk)
      rw [List.map_cons, if_pos hk, dictGet_cons, dictGet_cons, if_neg hne2,
        if_neg hne2, ih]
    · rw [List.map_cons, if_neg hk, dictGet_cons, dictGet_cons, ih]

theorem ensureSlot_options (it : ProposalItem) (v : String) :
    (it.ensureSlot v).options = it.options := by
  unfold ProposalItem.ensureSlot
  split_ifs <;> rfl

theorem ensureSlot_get_some (it : ProposalItem) (v k : String) (w : Option String)
    (h : dictGet it.votes k = some w) :
    dictGet (it.ensureSlot v).votes k = some w := by
  unfold ProposalItem.ensureSlot
  split_ifs with hk
  · exact h
  · show dictGet (it.votes ++ [(v, none)]) k = some w
    rw [dictGet_append, h]
    rfl

theorem ensureSlot_absent (it : ProposalItem) (v : String)
    (h : dictHasKey it.votes v = false) :
    it.ensureSlot v = { it with votes := it.votes ++ [(v, none)] } := by
  simp [ProposalItem.ensureSlot, h]

theorem ensure_participant_get (s : AIMPSession) (v item : String) :
    dictGet (s.ensure_participant v).proposals item
      = (dictGet s.proposals item).map (fun it => it.ensureSlot v) := by
  show dictGet (s.proposals.map (fun ni => (ni.1, ni.2.ensureSlot v))) item = _
  exact dictGet_mapVal s.proposals (fun it => it.ensureSlot v) item

theorem apply_vote_keyErr (s : AIMPSession) (voter item choice : String)
    (hg : dictGet s.proposals item = none) :
    s.apply_vote voter item choice
      = (s.ensure_participant voter, some PyErr.keyError) := by
  have hget : dictGet (s.ensure_participant voter).proposals item = none := by
    rw [ensure_participant_get, hg]
    rfl
  simp only [AIMPSession.apply_vote, hget]

theorem apply_vote_valErr (s : AIMPSession) (voter item choice : String)
    (it0 : ProposalItem) (hg : dictGet s.proposals item = some it0)
    (hopt : choice ∉ it0.options) :
    s.apply_vote voter item choice
      = (s.ensure_participant voter, some PyErr.valueError) := by
  have hget : dictGet (s.ensure_participant voter).proposals item
      = some (it0.ensureSlot voter) := by
    rw [ensure_participant_get, hg]
    rfl
  have hvote : (it0.ensureSlot voter).vote voter choice
      = Except.error PyErr.valueError := by
    unfold ProposalItem.vote
    rw [if_neg (by rw [ensureSlot_options]; exact hopt)]
  simp only [AIMPSession.apply_vote, hget, hvote]

theorem apply_vote_ok (s : AIMPSession) (voter item choice : String)
    (it0 : ProposalItem) (hg : dictGet s.proposals item = some it0)
    (hopt : choice ∈ it0.options) :
    s.apply_vote voter item choice
      = ({ s.ensure_participant voter with
            proposals := dictSet (s.ensure_participant voter).proposals item
              { it0.ensureSlot voter with
                votes := dictSet (it0.ensureSlot voter).votes voter (some choice) } },
         none) := by
  have hget : dictGet (s.ensure_participant voter).proposals item
      = some (it0.ensureSlot voter) := by
    rw [ensure_participant_get, hg]
    rfl
  have hvote : (it0.ensureSlot voter).vote voter choice
      = Except.ok { it0.ensureSlot voter with
          votes := dictSet (it0.ensureSlot voter).votes voter (some choice) } := by
    unfold ProposalItem.vote
    rw [if_pos (by rw [ensureSlot_options]; exact hopt)]
  simp only [AIMPSession.apply_vote, hget, hvote]

/-! ## C10 — failed `apply_vote` is not atomic -/

/-- C10: for a session whose vote dicts do not yet know `voter` (the
invariant state when `voter ∉ participants`), voting an unknown choice on an
existing item raises `ValueError` and records no vote, yet `voter` has
already been appended to `participants` and been given an unvoted slot in
every agenda item. -/
theorem c10_apply_vote_not_atomic (s : AIMPSession) (voter item choice : String)
    (hv : voter ∉ s.participants)
    (hslots : ∀ ni ∈ s.proposals, dictHasKey ni.2.votes voter = false)
    (hitem : ∃ it, dictGet s.proposals item = some it ∧ choice ∉ it.options) :
    (s.apply_vote voter item choice).2 = some PyErr.valueError
      ∧ (s.apply_vote voter item choice).1.participants = s.participants ++ [voter]
      ∧ (s.apply_vote voter item choice).1.proposals
          = s.proposals.map (fun ni =>
              (ni.1, { ni.2 with votes := ni.2.votes ++ [(voter, none)] })) := by
  obtain ⟨it0, hg, hco⟩ := hitem
  rw [apply_vote_valErr s voter item choice it0 hg hco]
  refine ⟨rfl, ?_, ?_⟩
  · show (if voter ∈ s.participants then s.participants
      else s.participants ++ [voter]) = _
    rw [if_neg hv]
  · show s.proposals.map (fun ni => (ni.1, ni.2.ensureSlot voter)) = _
    apply List.map_congr_left
    intro ni hni
    rw [ensureSlot_absent ni.2 voter (hslots ni hni)]

theorem c10_apply_vote_not_atomic_witness :
    ((AIMPSession.init "s" "t" ["a@x"] "a@x").apply_vote "c@x" "time" "Mon").2
        = some PyErr.valueError
      ∧ ((AIMPSession.init "s" "t" ["a@x"] "a@x").apply_vote "c@x" "time"
          "Mon").1.participants = ["a@x", "c@x"] :=
  have h := c10_apply_vote_not_atomic (AIMPSession.init "s" "t" ["a@x"] "a@x")
    "c@x" "time" "Mon" (by decide) (by decide)
    ⟨⟨[], [("a@x", none)]⟩, by decide, by decide⟩
  ⟨h.1, h.2.1⟩

/-! ## Frame lemmas: the pending-message fold only touches participants and
proposals -/

/-- All `AIMPSession` fields except `participants` and `proposals`. -/
def voteFrame (s t : AIMPSession) : Prop :=
  t.session_id = s.session_id ∧ t.topic = s.topic ∧ t.initiator = s.initiator
    ∧ t.version = s.version ∧ t.history = s.history ∧ t.status = s.status
    ∧ t.current_round = s.current_round
    ∧ t.round_respondents = s.round_respondents

theorem voteFrame_refl (s : AIMPSession) : voteFrame s s :=
  ⟨rfl, rfl, rfl, rfl, rfl, rfl, rfl, rfl⟩

theorem voteFrame_trans {s t u : AIMPSession} (h1 : voteFrame s t)
    (h2 : voteFrame t u) : voteFrame s u :=
  ⟨h2.1.trans h1.1, h2.2.1.trans h1.2.1, h2.2.2.1.trans h1.2.2.1,
   h2.2.2.2.1.trans h1.2.2.2.1, h2.2.2.2.2.1.trans h1.2.2.2.2.1,
   h2.2.2.2.2.2.1.trans h1.2.2.2.2.2.1,
   h2.2.2.2.2.2.2.1.trans h1.2.2.2.2.2.2.1,
   h2.2.2.2.2.2.2.2.trans h1.2.2.2.2.2.2.2⟩

theorem ensure_participant_frame (s : AIMPSession) (v : String) :
    voteFrame s (s.ensure_participant v) :=
  ⟨rfl, rfl, rfl, rfl, rfl, rfl, rfl, rfl⟩

theorem add_option_frame (s : AIMPSession) (item opt : String) :
    voteFrame s (s.add_option item opt) := by
  unfold AIMPSession.add_option
  split_ifs <;> exact ⟨rfl, rfl, rfl, rfl, rfl, rfl, rfl, rfl⟩

theorem apply_vote_frame (s : AIMPSession) (voter item choice : String) :
    voteFrame s (s.apply_vote voter item choice).1 := by
  cases hg : dictGet s.proposals item with
  | none =>
    rw [apply_vote_keyErr s voter item choice hg]
    exact ensure_participant_frame s voter
  | some it0 =>
    by_cases hopt : choice ∈ it0.options
    · rw [apply_vote_ok s voter item choice it0 hg hopt]
      exact voteFrame_trans (ensure_participant_frame s voter)
        ⟨rfl, rfl, rfl, rfl, rfl, rfl, rfl, rfl⟩
    · rw [apply_vote_valErr s voter item choice it0 hg hopt]
      exact ensure_participant_frame s voter

theorem humanVoteStep_frame (s : AIMPSession) (sender item : String)
    (choice : Option String) : voteFrame s (humanVoteStep s sender item choice) := by
  cases choice with
  | none => exact voteFrame_refl s
  | some c =>
    simp only [humanVoteStep]
    by_cases hc : c ≠ ""
    · rw [if_pos hc]
      cases hr : (s.apply_vote sender item c).2 with
      | none => exact apply_vote_frame s sender item c
      | some e =>
        exact voteFrame_trans
          (voteFrame_trans (apply_vote_frame s sender item c)
            (add_option_frame _ item c))
          (apply_vote_frame _ sender item c)
    · rw [if_neg hc]
      exact voteFrame_refl s

theorem foldHumanVotes_frame (sender : String)
    (votes : List (String × Option String)) :
    ∀ s : AIMPSession, voteFrame s (foldHumanVotes s sender votes) := by
  induction votes with
  | nil => intro s; exact voteFrame_refl s
  | cons iv rest ih =>
    intro s
    exact voteFrame_trans (humanVoteStep_frame s sender iv.1 iv.2) (ih _)

theorem addOptionsFold_frame (item : String) (opts : List String) :
    ∀ s : AIMPSession,
      voteFrame s (opts.foldl
        (fun a opt => if opt ≠ "" then a.add_option item opt else a) s) := by
  induction opts with
  | nil => intro s; exact voteFrame_refl s
  | cons o rest ih =>
    intro s
    refine @voteFrame_trans s (if o ≠ "" then s.add_option item o else s) _ ?_ (ih _)
    by_cases ho : o ≠ ""
    · rw [if_pos ho]
      exact add_option_frame s item o
    · rw [if_neg ho]
      exact voteFrame_refl s

theorem protoItemStep_frame (from_addr : String) (itemData : String × ProposalItemWire)
    (s : AIMPSession) : voteFrame s (protoItemStep from_addr s itemData) := by
  simp only [protoItemStep]
  cases hui : dictGet itemData.2.votes from_addr with
  | none => exact addOptionsFold_frame itemData.1 itemData.2.options s
  | some c =>
    cases c with
    | none => exact addOptionsFold_frame itemData.1 itemData.2.options s
    | some choice =>
      dsimp only
      by_cases hcc : choice ≠ ""
      · rw [if_pos hcc]
        exact voteFrame_trans (addOptionsFold_frame itemData.1 itemData.2.options s)
          (apply_vote_frame _ from_addr itemData.1 choice)
      · rw [if_neg hcc]
        exact addOptionsFold_frame itemData.1 itemData.2.options s

theorem applyVotesFromProtocol_frame (from_addr : String)
    (proto : List (String × ProposalItemWire)) :
    ∀ s : AIMPSession, voteFrame s (applyVotesFromProtocol s proto from_addr) := by
  induction proto with
  | nil => intro s; exact voteFrame_refl s
  | cons itemData rest ih =>
    intro s
    exact voteFrame_trans (protoItemStep_frame from_addr itemData s) (ih _)

theorem sessionPendingStep_frame (s : AIMPSession) (e : PendingMsg) :
    voteFrame s (sessionPendingStep s e) := by
  simp only [sessionPendingStep]
  cases hp : e.payload with
  | proto ps => exact applyVotesFromProtocol_frame e.from_addr ps s
  | human vs => exact foldHumanVotes_frame e.from_addr vs s

theorem foldSessionPending_frame (pending : List PendingMsg) :
    ∀ s : AIMPSession, voteFrame s (foldSessionPending s pending) := by
  induction pending with
  | nil => intro s; exact voteFrame_refl s
  | cons e rest ih =>
    intro s
    exact voteFrame_trans (sessionPendingStep_frame s e) (ih _)

/-! ## C5 — session round transition order -/

/-- C5: after a completed round's pending messages are folded in and the
round advanced, `_process_session_round` decides in this order: fully
resolved → status `confirmed` with a version bump and a confirm history
entry; else stalled (history length ≥ `MAX_ROUNDS` = 5) → status `escalated`
with no bump and no new entry; else a version bump, a counter history entry,
and an unchanged (`negotiating`) status.  In particular a session that is
simultaneously fully resolved and at the stall threshold is confirmed, not
escalated.  The fold never touches `history` or `status`, so the stall
predicate is equivalently about the incoming session's history. -/
theorem c5_transition_order (agent_email : String) (s : AIMPSession)
    (pending : List PendingMsg) :
    MAX_ROUNDS = 5
      ∧ (foldSessionPending s pending).advance_round.history = s.history
      ∧ (foldSessionPending s pending).advance_round.status = s.status
      ∧ ((foldSessionPending s pending).advance_round.is_fully_resolved = true →
          (processSessionRound agent_email s pending).1.status = "confirmed"
            ∧ (processSessionRound agent_email s pending).1.version
                = (foldSessionPending s pending).advance_round.version + 1
            ∧ (processSessionRound agent_email s pending).1.history
                = s.history
                  ++ [⟨(foldSessionPending s pending).advance_round.version + 1,
                      agent_email, "confirm", "所有议题达成共识"⟩])
      ∧ ((foldSessionPending s pending).advance_round.is_fully_resolved = false →
          MAX_ROUNDS ≤ s.history.length →
          (processSessionRound agent_email s pending).1.status = "escalated"
            ∧ (processSessionRound agent_email s pending).1.version
                = (foldSessionPending s pending).advance_round.version
            ∧ (processSessionRound agent_email s pending).1.history = s.history)
      ∧ ((foldSessionPending s pending).advance_round.is_fully_resolved = false →
          s.history.length < MAX_ROUNDS →
          (processSessionRound agent_email s pending).1.status = s.status
            ∧ (processSessionRound agent_email s pending).1.version
                = (foldSessionPending s pending).advance_round.version + 1
            ∧ ∃ entry : HistoryEntry, entry.action = "counter"
                ∧ (processSessionRound agent_email s pending).1.history
                    = s.history ++ [entry])
      ∧ ((foldSessionPending s pending).advance_round.is_fully_resolved = true →
          MAX_ROUNDS ≤ s.history.length →
          (processSessionRound agent_email s pending).1.status = "confirmed") := by
  obtain ⟨-, -, -, hver, hhist, hstat, -, -⟩ := foldSessionPending_frame pending s
  have hh : (foldSessionPending s pending).advance_round.history = s.history := hhist
  have hs : (foldSessionPending s pending).advance_round.status = s.status := hstat
  refine ⟨rfl, hh, hs, ?_, ?_, ?_, ?_⟩
  · intro hres
    simp only [processSessionRound]
    rw [if_pos hres]
    exact ⟨rfl, rfl, by rw [← hh]; rfl⟩
  · intro hres hle
    have hnres : ¬((foldSessionPending s pending).advance_round.is_fully_resolved
        = true) := by simp [hres]
    have hstalled : (foldSessionPending s pending).advance_round.is_stalled
        = true := by
      unfold AIMPSession.is_stalled AIMPSession.round_count
      rw [hh]
      exact decide_eq_true hle
    simp only [processSessionRound]
    rw [if_neg hnres, if_pos hstalled]
    exact ⟨rfl, rfl, by rw [← hh]⟩
  · intro hres hlt
    have hnres : ¬((foldSessionPending s pending).advance_round.is_fully_resolved
        = true) := by simp [hres]
    have hnstalled : ¬((foldSessionPending s pending).advance_round.is_stalled
        = true) := by
      unfold AIMPSession.is_stalled AIMPSession.round_count
      rw [hh]
      simp only [decide_eq_true_eq]
      omega
    simp only [processSessionRound]
    rw [if_neg hnres, if_neg hnstalled]
    refine ⟨hs, rfl, ⟨_, rfl, by rw [← hh]; rfl⟩⟩
  · intro hres hle
    simp only [processSessionRound]
    rw [if_pos hres]
    rfl

theorem c5_transition_order_witness :
    (processSessionRound "hub@x"
        (AIMPSession.mk "s" "t" ["hub@x", "a@x"] "hub@x" 5
          [("time", ⟨["Mon"], [("hub@x", some "Mon"), ("a@x", some "Mon")]⟩),
           ("location", ⟨["Zoom"], [("hub@x", some "Zoom"), ("a@x", some "Zoom")]⟩)]
          [⟨1, "hub@x", "propose", "p"⟩, ⟨2, "hub@x", "counter", "c"⟩,
           ⟨3, "hub@x", "counter", "c"⟩, ⟨4, "hub@x", "counter", "c"⟩,
           ⟨5, "hub@x", "counter", "c"⟩]
          "negotiating" 1 ["a@x"])
        []).1.status = "confirmed" :=
  (c5_transition_order "hub@x" _ []).2.2.2.2.2.2 (by decide) (by decide)

/-! ## C6 — human votes never fail: the option is added implicitly -/

theorem add_option_mem (it : ProposalItem) (c : String) :
    c ∈ (it.add_option c).options := by
  unfold ProposalItem.add_option
  split_ifs with h
  · exact h
  · simp

theorem add_option_eq_present (s : AIMPSession) (item opt : String)
    (hk : dictHasKey s.proposals item = true) :
    s.add_option item opt
      = { s with proposals := s.proposals.map (fun ni =>
            if ni.1 = item then (ni.1, ni.2.add_option opt) else ni) } := by
  unfold AIMPSession.add_option
  rw [if_pos hk]

theorem add_option_eq_absent (s : AIMPSession) (item opt : String)
    (hk : dictHasKey s.proposals item = false) :
    s.add_option item opt
      = { s with proposals := (dictSet s.proposals item
            ⟨[], initialVotes s.participants⟩).map (fun ni =>
            if ni.1 = item then (ni.1, ni.2.add_option opt) else ni) } := by
  unfold AIMPSession.add_option
  rw [if_neg (by rw [hk]; exact Bool.false_ne_true)]

theorem add_option_get_self_present (s : AIMPSession) (item opt : String)
    (it0 : ProposalItem) (hg : dictGet s.proposals item = some it0) :
    dictGet (s.add_option item opt).proposals item = some (it0.add_option opt) := by
  have hk : dictHasKey s.proposals item = true := by
    rw [dictHasKey_eq_isSome, hg]
    rfl
  rw [add_option_eq_present s item opt hk]
  exact Eq.trans
    (dictGet_mapIfKey_self s.proposals item (fun it => it.add_option opt))
    (by rw [hg]; rfl)

theorem add_option_get_self_absent (s : AIMPSession) (item opt : String)
    (hg : dictGet s.proposals item = none) :
    dictGet (s.add_option item opt).proposals item
      = some ((ProposalItem.mk [] (initialVotes s.participants)).add_option opt) := by
  have hk : dictHasKey s.proposals item = false := by
    rw [dictHasKey_eq_isSome, hg]
    rfl
  rw [add_option_eq_absent s item opt hk]
  exact Eq.trans
    (dictGet_mapIfKey_self (dictSet s.proposals item ⟨[], initialVotes s.participants⟩)
      item (fun it : ProposalItem => it.add_option opt))
    (by rw [dictGet_set_self]; rfl)

theorem add_option_get_ne (s : AIMPSession) (item opt k : String) (hne : k ≠ item) :
    dictGet (s.add_option item opt).proposals k = dictGet s.proposals k := by
  cases hk : dictHasKey s.proposals item with
  | true =>
    rw [add_option_eq_present s item opt hk]
    exact dictGet_mapIfKey_ne s.proposals item k (fun it => it.add_option opt) hne
  | false =>
    rw [add_option_eq_absent s item opt hk]
    exact Eq.trans
      (dictGet_mapIfKey_ne (dictSet s.proposals item ⟨[], initialVotes s.participants⟩)
        item k (fun it : ProposalItem => it.add_option opt) hne)
      (dictGet_set_ne _ _ _ _ hne)

theorem apply_vote_get_ne (s : AIMPSession) (voter item choice k : String)
    (hne : k ≠ item) :
    dictGet (s.apply_vote voter item choice).1.proposals k
      = (dictGet s.proposals k).map (fun it => it.ensureSlot voter) := by
  cases hg : dictGet s.proposals item with
  | none =>
    rw [apply_vote_keyErr s voter item choice hg]
    exact ensure_participant_get s voter k
  | some it0 =>
    by_cases hopt : choice ∈ it0.options
    · rw [apply_vote_ok s voter item choice it0 hg hopt]
      show dictGet (dictSet (s.ensure_participant voter).proposals item _) k = _
      rw [dictGet_set_ne _ _ _ _ hne]
      exact ensure_participant_get s voter k
    · rw [apply_vote_valErr s voter item choice it0 hg hopt]
      exact ensure_participant_get s voter k

/-- The per-item postcondition of C6: `item` exists, `c` is among its
options, and the sender's vote slot holds `c`. -/
def votedItemState (t : AIMPSession) (sender item c : String) : Prop :=
  ∃ it, dictGet t.proposals item = some it ∧ c ∈ it.options
    ∧ dictGet it.votes sender = some (some c)

theorem apply_vote_ok_spec (s : AIMPSession) (voter item choice : String)
    (it0 : ProposalItem) (hg : dictGet s.proposals item = some it0)
    (hopt : choice ∈ it0.options) :
    (s.apply_vote voter item choice).2 = none
      ∧ votedItemState (s.apply_vote voter item choice).1 voter item choice := by
  rw [apply_vote_ok s voter item choice it0 hg hopt]
  exact ⟨rfl, _, dictGet_set_self _ _ _,
    (by rw [ensureSlot_options]; exact hopt :
      choice ∈ ({ it0.ensureSlot voter with
        votes := dictSet (it0.ensureSlot voter).votes voter (some choice) }
          : ProposalItem).options),
    dictGet_set_self _ _ _⟩

theorem humanVoteStep_establishes (s : AIMPSession) (sender item c : String)
    (hc : c ≠ "") :
    votedItemState (humanVoteStep s sender item (some c)) sender item c := by
  simp only [humanVoteStep]
  rw [if_pos hc]
  cases hg : dictGet s.proposals item with
  | none =>
    simp only [apply_vote_keyErr s sender item c hg]
    have hg1 : dictGet (s.ensure_participant sender).proposals item = none := by
      rw [ensure_participant_get, hg]
      rfl
    have hg2 := add_option_get_self_absent (s.ensure_participant sender) item c hg1
    exact (apply_vote_ok_spec _ sender item c _ hg2 (add_option_mem _ c)).2
  | some it0 =>
    by_cases hopt : c ∈ (it0.ensureSlot sender).options
    · have hopt0 : c ∈ it0.options := by rwa [ensureSlot_options] at hopt
      have hsp := apply_vote_ok_spec s sender item c it0 hg hopt0
      simp only [apply_vote_ok s sender item c it0 hg hopt0] at hsp ⊢
      exact hsp.2
    · have hopt0 : c ∉ it0.options := by rwa [ensureSlot_options] at hopt
      simp only [apply_vote_valErr s sender item c it0 hg hopt0]
      have hg1 : dictGet (s.ensure_participant sender).proposals item
          = some (it0.ensureSlot sender) := by
        rw [ensure_participant_get, hg]
        rfl
      have hg2 := add_option_get_self_present (s.ensure_participant sender) item c
        (it0.ensureSlot sender) hg1
      exact (apply_vote_ok_spec _ sender item c _ hg2 (add_option_mem _ c)).2

theorem applyVote_preserves_voted (s : AIMPSession) (sender item c : String)
    (item2 choice2 : String) (hne : item ≠ item2)
    (hP : votedItemState s sender item c) :
    votedItemState (s.apply_vote sender item2 choice2).1 sender item c := by
  obtain ⟨it, hgi, hci, hvi⟩ := hP
  refine ⟨it.ensureSlot sender, ?_, ?_, ?_⟩
  · rw [apply_vote_get_ne s sender item2 choice2 item hne, hgi]
    rfl
  · rw [ensureSlot_options]
    exact hci
  · exact ensureSlot_get_some it sender sender _ hvi

theorem addOption_preserves_voted (s : AIMPSession) (sender item c : String)
    (item2 opt : String) (hne : item ≠ item2)
    (hP : votedItemState s sender item c) :
    votedItemState (s.add_option item2 opt) sender item c := by
  obtain ⟨it, hgi, hci, hvi⟩ := hP
  exact ⟨it, (add_option_get_ne s item2 opt item hne).trans hgi, hci, hvi⟩

theorem humanVoteStep_preserves (s : AIMPSession) (sender item c : String)
    (item2 : String) (c2 : Option String) (hne : item2 ≠ item)
    (hP : votedItemState s sender item c) :
    votedItemState (humanVoteStep s sender item2 c2) sender item c := by
  have hne2 : item ≠ item2 := fun hh => hne hh.symm
  cases c2 with
  | none => exact hP
  | some c2v =>
    simp only [humanVoteStep]
    by_cases hcc : c2v ≠ ""
    · rw [if_pos hcc]
      cases hr : (s.apply_vote sender item2 c2v).2 with
      | none => exact applyVote_preserves_voted s sender item c item2 c2v hne2 hP
      | some e =>
        exact applyVote_preserves_voted _ sender item c item2 c2v hne2
          (addOption_preserves_voted _ sender item c item2 c2v hne2
            (applyVote_preserves_voted s sender item c item2 c2v hne2 hP))
    · rw [if_neg hcc]
      exact hP

theorem foldHumanVotes_voted_aux (sender item c : String) (hc : c ≠ "") :
    ∀ (votes : List (String × Option String)) (s : AIMPSession),
      ((item, some c) ∈ votes ∨ votedItemState s sender item c) →
      (∀ iv ∈ votes, iv.1 = item → iv.2 = some c) →
      votedItemState (foldHumanVotes s sender votes) sender item c := by
  intro votes
  induction votes with
  | nil =>
    intro s hOr hA
    rcases hOr with h | h
    · simp at h
    · exact h
  | cons iv rest ih =>
    intro s hOr hA
    refine ih (humanVoteStep s sender iv.1 iv.2) ?_
      (fun iv2 h2 => hA iv2 (by simp [h2]))
    rcases hOr with hm | hp
    · rcases List.mem_cons.mp hm with he | hm2
      · right
        rw [← he]
        exact humanVoteStep_establishes s sender item c hc
      · left
        exact hm2
    · right
      by_cases hk : iv.1 = item
      · have hc2 : iv.2 = some c := hA iv (List.mem_cons_self iv rest) hk
        rw [hk, hc2]
        exact humanVoteStep_establishes s sender item c hc
      · exact humanVoteStep_preserves s sender item c iv.1 iv.2 hk hp

/-- C6: when a pending session message without a protocol attachment is
folded in, every agenda item for which the LLM oracle returned a non-null
(non-empty) choice ends up with that choice among its options and with the
sender's vote recorded — the vote never fails; an unknown choice implicitly
adds the option first. -/
theorem c6_human_vote_never_fails (s : AIMPSession) (e : PendingMsg)
    (votes : List (String × Option String))
    (hp : e.payload = PendingPayload.human votes) (item c : String) (hc : c ≠ "")
    (hall : ∀ iv ∈ votes, iv.1 = item → iv.2 = some c)
    (hmem : (item, some c) ∈ votes) :
    ∃ it, dictGet (sessionPendingStep s e).proposals item = some it
      ∧ c ∈ it.options ∧ dictGet it.votes e.from_addr = some (some c) := by
  simp only [sessionPendingStep, hp]
  exact foldHumanVotes_voted_aux e.from_addr item c hc votes s (Or.inl hmem) hall

theorem c6_human_vote_never_fails_witness :
    ∃ it, dictGet (sessionPendingStep (AIMPSession.init "s" "t" ["hub@x", "alice@x"] "hub@x")
        ⟨"alice@x", PendingPayload.human [("time", some "Tue 2pm")]⟩).proposals "time"
        = some it
      ∧ "Tue 2pm" ∈ it.options ∧ dictGet it.votes "alice@x" = some (some "Tue 2pm") :=
  c6_human_vote_never_fails (AIMPSession.init "s" "t" ["hub@x", "alice@x"] "hub@x")
    ⟨"alice@x", PendingPayload.human [("time", some "Tue 2pm")]⟩
    [("time", some "Tue 2pm")] rfl "time" "Tue 2pm" (by decide) (by decide) (by decide)

/-! ## C9 — auto-reply / bounce filter -/

/-- C9: every address whose (lower-cased) local part is in the spec's
12-entry set is filtered, every subject that after lower-casing and trimming
starts with one of the listed markers is filtered, a positive match makes
the poll loop drop the message without any reply, and the plausible human
message (alice@example.com, "Re: meeting") is not filtered. -/
theorem c9_auto_reply_filter :
    (∀ sender subject : String,
        splitLocal (pyLower sender) ∈ specAutoReplyLocals →
        isAutoReply sender subject = true)
    ∧ (∀ sender subject : String,
        (autoReplySubjectStarts.any
          (fun p => pyStartsWith (pyStrip (pyLower subject)) p)) = true →
        isAutoReply sender subject = true)
    ∧ (∀ sender subject : String, isAutoReply sender subject = true →
        ∀ isInv : Bool, pollUnknownSenderAction sender subject isInv = "drop")
    ∧ isAutoReply "alice@example.com" "Re: meeting" = false := by
  have hsub : ∀ x ∈ specAutoReplyLocals, x ∈ autoReplyLocals := by decide
  refine ⟨?_, ?_, ?_, by decide⟩
  · intro sender subject hmem
    simp only [isAutoReply]
    rw [if_pos (hsub _ hmem)]
  · intro sender subject hany
    have hne : subject ≠ "" := by
      intro h0
      rw [h0] at hany
      exact absurd hany (by decide)
    simp only [isAutoReply]
    by_cases h1 : splitLocal (pyLower sender) ∈ autoReplyLocals
    · rw [if_pos h1]
    · rw [if_neg h1]
      by_cases h2 : (["no-reply", "noreply", "mailer-daemon", "do-not-reply"].any
          (fun p => strContains (splitLocal (pyLower sender)) p)) = true
      · rw [if_pos h2]
      · rw [if_neg h2, if_pos ⟨hne, hany⟩]
  · intro sender subject h isInv
    simp only [pollUnknownSenderAction]
    rw [if_pos h]

theorem c9_auto_reply_filter_witness :
    isAutoReply "no-reply@foo.com" "hello" = true
      ∧ isAutoReply "bob@corp.com" "Out of office: vacation" = true
      ∧ pollUnknownSenderAction "no-reply@foo.com" "hello" false = "drop" :=
  ⟨c9_auto_reply_filter.1 "no-reply@foo.com" "hello" (by decide),
   c9_auto_reply_filter.2.1 "bob@corp.com" "Out of office: vacation" (by decide),
   c9_auto_reply_filter.2.2.1 "no-reply@foo.com" "hello"
     (c9_auto_reply_filter.1 "no-reply@foo.com" "hello" (by decide)) false⟩

/-! ## C8 — invite-code validation and consumption -/

theorem find_code_unique (code : String) (ic : InviteCode) :
    ∀ codes : List InviteCode, (codes.map InviteCode.code).Nodup →
      ic ∈ codes → ic.code = code →
      codes.find? (fun x => x.code = code) = some ic := by
  intro codes
  induction codes with
  | nil => intro _ hm; cases hm
  | cons a rest ih =>
    intro hnd hm hc
    rw [List.map_cons, List.nodup_cons] at hnd
    rcases List.mem_cons.mp hm with he | hm2
    · subst he
      simp [List.find?_cons, hc]
    · have hane : ¬a.code = code := by
        intro heq
        have hmem : ic.code ∈ rest.map InviteCode.code :=
          List.mem_map_of_mem InviteCode.code hm2
        rw [hc, ← heq] at hmem
        exact hnd.1 hmem
      simp only [List.find?_cons]
      rw [show (decide (a.code = code)) = false by simp [hane]]
      exact ih hnd.2 hm2 hc

theorem validate_some_inv (today : Int) (codes : List InviteCode) (code : String)
    (ic : InviteCode) (hv : validateInviteCode today codes code = some ic) :
    codes.find? (fun x => x.code = code) = some ic
      ∧ (∀ d : Int, ic.expires = some (some d) → ¬today > d)
      ∧ ¬(ic.max_uses > 0 ∧ ic.used ≥ ic.max_uses) := by
  unfold validateInviteCode at hv
  cases hf : codes.find? (fun x => x.code = code) with
  | none => rw [hf] at hv; exact absurd hv (by simp)
  | some ic0 =>
    rw [hf] at hv
    dsimp only at hv
    split_ifs at hv with h1 h2
    have hic : ic0 = ic := by injection hv
    subst hic
    refine ⟨rfl, ?_, h2⟩
    intro d hd
    rw [hd] at h1
    simpa using h1

theorem find_consume (code : String) :
    ∀ codes : List InviteCode,
      (consumeInviteCode codes code).find? (fun x => x.code = code)
        = (codes.find? (fun x => x.code = code)).map
            (fun ic => { ic with used := ic.used + 1 }) := by
  intro codes
  induction codes with
  | nil => rfl
  | cons a rest ih =>
    by_cases ha : a.code = code
    · simp [consumeInviteCode, ha, List.find?_cons]
    · simp [consumeInviteCode, ha, List.find?_cons, ih]

/-- C8: an invite code is accepted iff a configured record with that code
exists whose (parseable) expiry is not before today and whose use counter is
below a positive `max_uses`; acceptance increments the counter of that
record, so (for non-negative counters) a `max_uses = 1` code is accepted
exactly once; an invalid code produces the `invite_rejected` ("code
invalid") reply.  Hypotheses: configured codes are pairwise distinct, expiry
dates parse, and counters are non-negative. -/
theorem c8_invite_code_validation (today : Int) (codes : List InviteCode)
    (code : String) (hnd : (codes.map InviteCode.code).Nodup)
    (hparse : ∀ ic ∈ codes, ic.expires ≠ some none)
    (hused : ∀ ic ∈ codes, 0 ≤ ic.used) :
    ((validateInviteCode today codes code).isSome = true ↔
      ∃ ic ∈ codes, ic.code = code
        ∧ (∀ d : Int, ic.expires = some (some d) → today ≤ d)
        ∧ (0 < ic.max_uses → ic.used < ic.max_uses))
    ∧ (∀ ic, validateInviteCode today codes code = some ic → ic.max_uses = 1 →
        validateInviteCode today (consumeInviteCode codes code) code = none)
    ∧ ((validateInviteCode today codes code).isSome = false →
        handleInviteRequest false today codes code = ("invite_rejected", codes))
    ∧ (∀ ic, validateInviteCode today codes code = some ic →
        handleInviteRequest false today codes code
            = ("invite_accepted", consumeInviteCode codes code)
          ∧ ∃ ic2 ∈ consumeInviteCode codes code, ic2.code = code
              ∧ ic2.used = ic.used + 1) := by
  refine ⟨⟨?_, ?_⟩, ?_, ?_, ?_⟩
  · -- isSome → ∃
    intro hs
    cases hv : validateInviteCode today codes code with
    | none => rw [hv] at hs; simp at hs
    | some ic =>
      obtain ⟨hf, hexp, huse⟩ := validate_some_inv today codes code ic hv
      have hmem : ic ∈ codes := List.mem_of_find?_eq_some hf
      have hcode : ic.code = code := by
        have := List.find?_some hf
        simpa using this
      refine ⟨ic, hmem, hcode, ?_, ?_⟩
      · intro d hd
        have := hexp d hd
        omega
      · intro hpos
        by_contra hge
        exact huse ⟨hpos, by omega⟩
  · -- ∃ → isSome
    rintro ⟨ic, hmem, hcode, hexp, huse⟩
    have hf := find_code_unique code ic codes hnd hmem hcode
    unfold validateInviteCode
    rw [hf]
    dsimp only
    have hexpired :
        (match ic.expires with
          | some (some d) => decide (today > d)
          | _ => false) = false := by
      cases hex : ic.expires with
      | none => rfl
      | some o =>
        cases o with
        | none => exact absurd hex (hparse ic hmem)
        | some d =>
          have := hexp d hex
          simp
          omega
    rw [hexpired]
    rw [if_neg (by simp)]
    rw [if_neg (by intro hcon; rcases hcon with ⟨hpos, hge⟩; have := huse hpos; omega)]
    rfl
  · -- max_uses = 1: accepted at most once
    intro ic hv h1
    obtain ⟨hf, hexp, huse⟩ := validate_some_inv today codes code ic hv
    have hmem : ic ∈ codes := List.mem_of_find?_eq_some hf
    have hu0 : ic.used = 0 := by
      have hge := hused ic hmem
      rw [h1] at huse
      omega
    unfold validateInviteCode
    rw [find_consume code codes, hf]
    simp only [Option.map_some']
    dsimp only
    have hexpired :
        (match ic.expires with
          | some (some d) => decide (today > d)
          | _ => false) = false := by
      cases hex : ic.expires with
      | none => rfl
      | some o =>
        cases o with
        | none => exact absurd hex (hparse ic hmem)
        | some d =>
          have := hexp d hex
          simp
          omega
    rw [hexpired]
    rw [if_neg (by simp)]
    rw [if_pos (by constructor <;> simp [h1, hu0])]
  · -- rejection path
    intro hs
    have hv : validateInviteCode today codes code = none := by
      cases hv : validateInviteCode today codes code with
      | none => rfl
      | some ic => rw [hv] at hs; simp at hs
    unfold handleInviteRequest
    rw [if_neg (by simp), hv]
  · -- acceptance path
    intro ic hv
    constructor
    · unfold handleInviteRequest
      rw [if_neg (by simp), hv]
    · obtain ⟨hf, -, -⟩ := validate_some_inv today codes code ic hv
      have hcode : ic.code = code := by
        have := List.find?_some hf
        simpa using this
      have hf2 := find_consume code codes
      rw [hf] at hf2
      refine ⟨{ ic with used := ic.used + 1 }, ?_, hcode, rfl⟩
      exact List.mem_of_find?_eq_some hf2

theorem c8_invite_code_validation_witness :
    (validateInviteCode 10
        [⟨"open2026", some (some 20), 1, 0⟩] "open2026").isSome = true
      ∧ validateInviteCode 10
          (consumeInviteCode [⟨"open2026", some (some 20), 1, 0⟩] "open2026")
          "open2026" = none
      ∧ handleInviteRequest false 10 [⟨"open2026", some (some 20), 1, 0⟩] "bad"
          = ("invite_rejected", [⟨"open2026", some (some 20), 1, 0⟩]) :=
  have h := c8_invite_code_validation 10 [⟨"open2026", some (some 20), 1, 0⟩]
    "open2026" (by decide) (by decide) (by decide)
  have hbad := c8_invite_code_validation 10 [⟨"open2026", some (some 20), 1, 0⟩]
    "bad" (by decide) (by decide) (by decide)
  ⟨h.1.mpr ⟨⟨"open2026", some (some 20), 1, 0⟩, by decide, rfl,
      fun d hd => by simp at hd; omega, fun _ => by decide⟩,
   h.2.1 ⟨"open2026", some (some 20), 1, 0⟩ (by decide) rfl,
   hbad.2.2.1 (by decide)⟩

/-! ## C2 — terminal status and late messages -/

/-- The claim is refuted on the session side: `_handle_human_email` never
inspects `session.status`, so a late human reply to an already-confirmed
(fully resolved) session re-enters `_send_confirm`, which bumps the version,
appends another confirm entry and saves — the stored entity is modified. -/
theorem c2_counterexample :
    (AIMPSession.mk "s" "t" ["hub@x", "a@x"] "hub@x" 2
        [("time", ⟨["Mon"], [("hub@x", some "Mon"), ("a@x", some "Mon")]⟩),
         ("location", ⟨["Zoom"], [("hub@x", some "Zoom"), ("a@x", some "Zoom")]⟩)]
        [⟨2, "hub@x", "confirm", "done"⟩] "confirmed" 2 []).status = "confirmed"
      ∧ (handleHumanEmail "hub@x"
          (AIMPSession.mk "s" "t" ["hub@x", "a@x"] "hub@x" 2
            [("time", ⟨["Mon"], [("hub@x", some "Mon"), ("a@x", some "Mon")]⟩),
             ("location", ⟨["Zoom"], [("hub@x", some "Zoom"), ("a@x", some "Zoom")]⟩)]
            [⟨2, "hub@x", "confirm", "done"⟩] "confirmed" 2 [])
          "a@x" "accept" []).map Prod.fst
        ≠ some (AIMPSession.mk "s" "t" ["hub@x", "a@x"] "hub@x" 2
            [("time", ⟨["Mon"], [("hub@x", some "Mon"), ("a@x", some "Mon")]⟩),
             ("location", ⟨["Zoom"], [("hub@x", some "Zoom"), ("a@x", some "Zoom")]⟩)]
            [⟨2, "hub@x", "confirm", "done"⟩] "confirmed" 2 []) := by
  exact ⟨rfl, by decide⟩

/-- C2 as amended: the terminal-status guarantee holds exactly for the Room
message handler — `_handle_room_email` drops any message for a room whose
status is not `open` without modifying it or emitting events.  It does not
hold in general: a CONFIRM veto on a finalized room grows `accepted_by` and
the transcript (by design, spec §4.4.2), and the session human-email handler
ignores terminal status entirely — a late human reply to a confirmed,
fully-resolved session is re-confirmed with a version bump and a new history
entry, and the result is saved. -/
theorem c2_terminal_status :
    (∀ (emailToName : String → String) (now : Int) (hub_email : String)
        (room : AIMPRoom) (sender body : String) (am : AmendmentData),
        room.status ≠ "open" →
        handleRoomEmail emailToName now hub_email (some room) sender body am
          = (some room, []))
    ∧ (∀ (agent_email : String) (s : AIMPSession) (sender action reason : String),
        s.status = "confirmed" → s.is_fully_resolved = true →
        handleHumanEmail agent_email s sender action [] reason
            = some (sendConfirm agent_email s, "consensus")
          ∧ (sendConfirm agent_email s).version = s.version + 1
          ∧ (sendConfirm agent_email s).history
              = s.history ++ [⟨s.version + 1, agent_email, "confirm",
                  "All issues have reached consensus / 所有议题已达成共识"⟩]) := by
  constructor
  · intro emailToName now hub_email room sender body am hstat
    simp only [handleRoomEmail]
    rw [if_pos hstat]
  · intro agent_email s sender action reason hstat hres
    simp only [handleHumanEmail, List.foldl_nil]
    rw [if_pos hres]
    exact ⟨rfl, rfl, rfl⟩

theorem c2_terminal_status_witness :
    handleRoomEmail (fun e => e) 5 "hub@x"
        (some (AIMPRoom.mk "r" "t" 9 ["a@x"] "a@x" [] [] "finalized" 1 "majority"
          [] 1 []))
        "a@x" "late reply" ⟨"ACCEPT", "", "", none⟩
      = (some (AIMPRoom.mk "r" "t" 9 ["a@x"] "a@x" [] [] "finalized" 1 "majority"
          [] 1 []), []) :=
  c2_terminal_status.1 (fun e => e) 5 "hub@x" _ "a@x" "late reply"
    ⟨"ACCEPT", "", "", none⟩ (by decide)

/-! ## C1 — round-advance facts about the src round processors -/

theorem record_round_reply_fields (s : AIMPSession) (f : String) :
    (s.record_round_reply f).proposals = s.proposals
      ∧ (s.record_round_reply f).history = s.history
      ∧ (s.record_round_reply f).status = s.status
      ∧ (s.record_round_reply f).version = s.version
      ∧ (s.record_round_reply f).current_round = s.current_round := by
  unfold AIMPSession.record_round_reply
  split_ifs <;> exact ⟨rfl, rfl, rfl, rfl, rfl⟩

theorem processSessionRound_round (a : String) (s : AIMPSession)
    (p : List PendingMsg) :
    (processSessionRound a s p).1.current_round = s.current_round + 1
      ∧ (processSessionRound a s p).1.round_respondents = [] := by
  have hcr : (foldSessionPending s p).current_round = s.current_round :=
    (foldSessionPending_frame p s).2.2.2.2.2.2.1
  simp only [processSessionRound]
  split_ifs with h1 h2
  · exact ⟨by show (foldSessionPending s p).current_round + 1 = _; rw [hcr], rfl⟩
  · exact ⟨by show (foldSessionPending s p).current_round + 1 = _; rw [hcr], rfl⟩
  · exact ⟨by show (foldSessionPending s p).current_round + 1 = _; rw [hcr], rfl⟩

theorem is_round_complete_no_respondents (s : AIMPSession)
    (h : s.round_respondents = []) : s.is_round_complete = false := by
  simp only [AIMPSession.is_round_complete, h]
  cases hexp : (if s.current_round = 1
      then s.participants.filter (fun p => p ≠ s.initiator)
      else s.participants) with
  | nil => simp
  | cons a t => simp

theorem room_record_round_reply_fields (r : AIMPRoom) (f : String) :
    (r.record_round_reply f).artifacts = r.artifacts
      ∧ (r.record_round_reply f).transcript = r.transcript
      ∧ (r.record_round_reply f).status = r.status
      ∧ (r.record_round_reply f).accepted_by = r.accepted_by
      ∧ (r.record_round_reply f).current_round = r.current_round := by
  unfold AIMPRoom.record_round_reply
  split_ifs <;> exact ⟨rfl, rfl, rfl, rfl, rfl⟩

theorem applyRoomAction_round (emailToName : String → String) (now : Int)
    (room : AIMPRoom) (sender : String) (d : AmendmentData) :
    (applyRoomAction emailToName now room sender d).current_round
        = room.current_round
      ∧ (applyRoomAction emailToName now room sender d).round_respondents
          = room.round_respondents := by
  simp only [applyRoomAction, AIMPRoom.add_to_transcript]
  split_ifs <;> exact ⟨rfl, rfl⟩

theorem roomPendingStep_round (emailToName : String → String) (now : Int)
    (room : AIMPRoom) (e : RoomPending) :
    (roomPendingStep emailToName now room e).current_round = room.current_round
      ∧ (roomPendingStep emailToName now room e).round_respondents
          = room.round_respondents := by
  unfold roomPendingStep
  split_ifs
  · exact applyRoomAction_round emailToName now room e.from_addr e.amendment
  · exact ⟨rfl, rfl⟩

theorem roomFold_round (emailToName : String → String) (now : Int)
    (pending : List RoomPending) :
    ∀ room : AIMPRoom,
      (pending.foldl (roomPendingStep emailToName now) room).current_round
          = room.current_round
        ∧ (pending.foldl (roomPendingStep emailToName now) room).round_respondents
            = room.round_respondents := by
  induction pending with
  | nil => intro room; exact ⟨rfl, rfl⟩
  | cons e rest ih =>
    intro room
    have hstep := roomPendingStep_round emailToName now room e
    have hrest := ih (roomPendingStep emailToName now room e)
    exact ⟨hrest.1.trans hstep.1, hrest.2.trans hstep.2⟩

theorem processRoomRound_round (a h : String) (emailToName : String → String)
    (now : Int) (room : AIMPRoom) (pending : List RoomPending) :
    (processRoomRound a h emailToName now room pending).1.current_round
        = room.current_round + 1
      ∧ (processRoomRound a h emailToName now room pending).1.round_respondents
          = [] := by
  have hcr := (roomFold_round emailToName now pending room).1
  simp only [processRoomRound]
  split_ifs with h1
  · constructor
    · show (pending.foldl (roomPendingStep emailToName now) room).current_round + 1 = _
      rw [hcr]
    · rfl
  · constructor
    · show (pending.foldl (roomPendingStep emailToName now) room).current_round + 1 = _
      rw [hcr]
    · rfl

theorem room_is_round_complete_no_respondents (r : AIMPRoom)
    (h : r.round_respondents = []) : r.is_round_complete = false := by
  simp only [AIMPRoom.is_round_complete, h]
  cases hexp : (if r.current_round = 1
      then r.participants.filter (fun p => p ≠ r.initiator)
      else r.participants) with
  | nil => simp
  | cons a t => simp

/-- C1: refuted by the code present in src: the dispatch path the claim
cites processes each inbound message immediately, with no pending-email row
and no round gating.  At a concrete open three-participant room, a single
ACCEPT from one non-initiator leaves the round incomplete
(`is_round_complete` is false even after `record_round_reply`, since the
other non-initiator has not replied), yet `_handle_room_email` has already
modified the stored room — `accepted_by` gains the sender, the result
differs from the loaded room, and an amendment event is emitted.  Likewise a
single human vote on a three-participant session is applied to the stored
proposals at once (the sender's time slot becomes Tue and a reply is sent)
while the round is incomplete.  Entity state thus changes outside
`process_round` and before any round completes, refuting both the
store-first and the round-gating halves of the claim. -/
theorem c1_immediate_processing :
    ((AIMPRoom.mk "r1" "t" 100 ["h@x", "a@x", "b@x"] "h@x" [] [] "open" 0 ""
        [] 1 []).record_round_reply "a@x").is_round_complete = false
      ∧ (handleRoomEmail (fun _ => "") 10 "h@x"
            (some (AIMPRoom.mk "r1" "t" 100 ["h@x", "a@x", "b@x"] "h@x" [] []
              "open" 0 "" [] 1 []))
            "a@x" "ok" (AmendmentData.mk "accept" "acc" "" none)).1
          ≠ some (AIMPRoom.mk "r1" "t" 100 ["h@x", "a@x", "b@x"] "h@x" [] []
            "open" 0 "" [] 1 [])
      ∧ ((handleRoomEmail (fun _ => "") 10 "h@x"
            (some (AIMPRoom.mk "r1" "t" 100 ["h@x", "a@x", "b@x"] "h@x" [] []
              "open" 0 "" [] 1 []))
            "a@x" "ok" (AmendmentData.mk "accept" "acc" "" none)).1.map
          AIMPRoom.accepted_by) = some ["a@x"]
      ∧ (handleRoomEmail (fun _ => "") 10 "h@x"
            (some (AIMPRoom.mk "r1" "t" 100 ["h@x", "a@x", "b@x"] "h@x" [] []
              "open" 0 "" [] 1 []))
            "a@x" "ok" (AmendmentData.mk "accept" "acc" "" none)).2
          = ["room_amendment_received"]
      ∧ ((AIMPSession.mk "s1" "t" ["h@x", "a@x", "b@x"] "h@x" 1
          [("time", ProposalItem.mk ["Mon", "Tue"]
              [("h@x", some "Mon"), ("a@x", none), ("b@x", none)]),
           ("location", ProposalItem.mk ["Zoom"]
              [("h@x", some "Zoom"), ("a@x", none), ("b@x", none)])]
          [] "negotiating" 1 []).record_round_reply "a@x").is_round_complete
          = false
      ∧ ((handleHumanEmail "h@x"
            (AIMPSession.mk "s1" "t" ["h@x", "a@x", "b@x"] "h@x" 1
              [("time", ProposalItem.mk ["Mon", "Tue"]
                  [("h@x", some "Mon"), ("a@x", none), ("b@x", none)]),
               ("location", ProposalItem.mk ["Zoom"]
                  [("h@x", some "Zoom"), ("a@x", none), ("b@x", none)])]
              [] "negotiating" 1 [])
            "a@x" "counter" [("time", some "Tue")] "").map (fun r => r.1))
          ≠ some (AIMPSession.mk "s1" "t" ["h@x", "a@x", "b@x"] "h@x" 1
            [("time", ProposalItem.mk ["Mon", "Tue"]
                [("h@x", some "Mon"), ("a@x", none), ("b@x", none)]),
             ("location", ProposalItem.mk ["Zoom"]
                [("h@x", some "Zoom"), ("a@x", none), ("b@x", none)])]
            [] "negotiating" 1 [])
      ∧ ((handleHumanEmail "h@x"
            (AIMPSession.mk "s1" "t" ["h@x", "a@x", "b@x"] "h@x" 1
              [("time", ProposalItem.mk ["Mon", "Tue"]
                  [("h@x", some "Mon"), ("a@x", none), ("b@x", none)]),
               ("location", ProposalItem.mk ["Zoom"]
                  [("h@x", some "Zoom"), ("a@x", none), ("b@x", none)])]
              [] "negotiating" 1 [])
            "a@x" "counter" [("time", some "Tue")] "").map (fun r =>
          ((dictGet r.1.proposals "time").getD (ProposalItem.mk [] [])).votes))
          = some [("h@x", some "Mon"), ("a@x", some "Tue"), ("b@x", none)]
      ∧ ((handleHumanEmail "h@x"
            (AIMPSession.mk "s1" "t" ["h@x", "a@x", "b@x"] "h@x" 1
              [("time", ProposalItem.mk ["Mon", "Tue"]
                  [("h@x", some "Mon"), ("a@x", none), ("b@x", none)]),
               ("location", ProposalItem.mk ["Zoom"]
                  [("h@x", some "Zoom"), ("a@x", none), ("b@x", none)])]
              [] "negotiating" 1 [])
            "a@x" "counter" [("time", some "Tue")] "").map (fun r => r.2))
          = some "reply_sent" := by
  refine ⟨by decide, by decide, by decide, by decide, by decide, by decide,
    by decide, by decide⟩

end AIMP
